import Mathlib

/-!
Verification of the "Beth Yw?" Welsh government data parser
(Measure / Area / Areas classes with three format parsers).

This file shallowly embeds the C++ sources (measure.cpp, area.cpp, areas.cpp)
into Lean:
  * `std::map<K, V>` is modelled as an association list with unique keys;
    lookups take the entry whose key matches, and an upsert (the map
    `insert`-then-overwrite idiom used throughout the sources) replaces the
    entry in place or appends a new one.  All theorems below are stated via
    lookups, so that the difference between the sorted order of `std::map`
    and the insertion order of the model is invisible to them.
  * `double` values are modelled as `Rat`; the one place where IEEE-754
    semantics are observable for the claims (division by a zero count in
    `Measure::getAverage`) is modelled explicitly by `DReal` with a `nan`
    value, mirroring `0.0 / 0 = NaN`.
  * C++ exceptions become `Except PopError`; the out-of-bounds vector access
    `values[index]` in `Areas::populateFromAuthorityByYearCSV` (undefined
    behaviour in C++) is modelled by an `Option` lookup whose `none` case
    surfaces as `PopError.indexOutOfBounds`.
  * character streams are modelled as the list of their lines, and
    `std::getline(stream, s, ',')` by splitting a line on commas, with a
    failed extraction leaving the (erased) empty string, as in C++.
  * the `std::regex` "^.*tok.*$" with `icase` built by
    `checkIfAreaMatchesFilter` is modelled as a case-insensitive substring
    test, which is its meaning for metacharacter-free filter tokens (the
    claims under study never exercise metacharacters).
-/

/-! ## Association-list maps (model of std::map) -/

def lookupKey {β : Type} : List (String × β) → String → Option β
  | [], _ => none
  | (k, v) :: rest, key => if key = k then some v else lookupKey rest key

def lookupYear {β : Type} : List (Nat × β) → Nat → Option β
  | [], _ => none
  | (k, v) :: rest, key => if key = k then some v else lookupYear rest key

def upsert {β : Type} : List (String × β) → String → β → List (String × β)
  | [], key, val => [(key, val)]
  | (k, v) :: rest, key, val =>
      if key = k then (key, val) :: rest else (k, v) :: upsert rest key val

def upsertYear {β : Type} : List (Nat × β) → Nat → β → List (Nat × β)
  | [], key, val => [(key, val)]
  | (k, v) :: rest, key, val =>
      if key = k then (key, val) :: rest else (k, v) :: upsertYear rest key val

theorem lookupKey_upsert_self {β : Type} (m : List (String × β)) (k : String) (v : β) :
    lookupKey (upsert m k v) k = some v := by
  induction m with
  | nil => simp [upsert, lookupKey]
  | cons p rest ih =>
      by_cases h : k = p.1
      · simp [upsert, lookupKey, h]
      · simp [upsert, lookupKey, h, ih]

theorem lookupKey_upsert_ne {β : Type} (m : List (String × β)) (k k' : String) (v : β)
    (h : k' ≠ k) : lookupKey (upsert m k v) k' = lookupKey m k' := by
  induction m with
  | nil => simp [upsert, lookupKey, h]
  | cons p rest ih =>
      by_cases h2 : k = p.1
      · subst h2
        simp [upsert, lookupKey, h]
      · by_cases h3 : k' = p.1
        · simp [upsert, lookupKey, h2, h3]
        · simp [upsert, lookupKey, h2, h3, ih]

theorem lookupYear_upsertYear_self {β : Type} (m : List (Nat × β)) (k : Nat) (v : β) :
    lookupYear (upsertYear m k v) k = some v := by
  induction m with
  | nil => simp [upsertYear, lookupYear]
  | cons p rest ih =>
      by_cases h : k = p.1
      · simp [upsertYear, lookupYear, h]
      · simp [upsertYear, lookupYear, h, ih]

theorem lookupYear_upsertYear_ne {β : Type} (m : List (Nat × β)) (k k' : Nat) (v : β)
    (h : k' ≠ k) : lookupYear (upsertYear m k v) k' = lookupYear m k' := by
  induction m with
  | nil => simp [upsertYear, lookupYear, h]
  | cons p rest ih =>
      by_cases h2 : k = p.1
      · subst h2
        simp [upsertYear, lookupYear, h]
      · by_cases h3 : k' = p.1
        · simp [upsertYear, lookupYear, h2, h3]
        · simp [upsertYear, lookupYear, h2, h3, ih]

theorem lookupKey_eq_none_of_not_mem {β : Type} (m : List (String × β)) (k : String)
    (h : k ∉ m.map Prod.fst) : lookupKey m k = none := by
  induction m with
  | nil => rfl
  | cons p rest ih =>
      simp only [List.map_cons, List.mem_cons] at h
      push_neg at h
      simp [lookupKey, h.1, ih h.2]

theorem lookupKey_isSome_of_mem {β : Type} (m : List (String × β)) (k : String)
    (h : k ∈ m.map Prod.fst) : (lookupKey m k).isSome := by
  induction m with
  | nil => simp at h
  | cons p rest ih =>
      by_cases h2 : k = p.1
      · simp [lookupKey, h2]
      · simp only [List.map_cons, List.mem_cons] at h
        rcases h with h | h
        · exact absurd h h2
        · simp [lookupKey, h2, ih h]

theorem lookupKey_of_mem_nodup {β : Type} (m : List (String × β)) (p : String × β)
    (hnd : (m.map Prod.fst).Nodup) (hmem : p ∈ m) : lookupKey m p.1 = some p.2 := by
  induction m with
  | nil => simp at hmem
  | cons q rest ih =>
      simp only [List.map_cons, List.nodup_cons] at hnd
      rcases List.mem_cons.mp hmem with h | h
      · subst h
        simp [lookupKey]
      · have hne : p.1 ≠ q.1 := by
          intro hc
          exact hnd.1 (hc ▸ List.mem_map_of_mem Prod.fst h)
        simp [lookupKey, hne, ih hnd.2 h]

theorem upsert_length_of_isSome {β : Type} (m : List (String × β)) (k : String) (v : β)
    (h : (lookupKey m k).isSome) : (upsert m k v).length = m.length := by
  induction m with
  | nil => simp [lookupKey] at h
  | cons p rest ih =>
      by_cases h2 : k = p.1
      · simp [upsert, h2]
      · simp only [lookupKey, if_neg h2] at h
        simp [upsert, h2, ih h]

theorem upsert_keys_of_isSome {β : Type} (m : List (String × β)) (k : String) (v : β)
    (h : (lookupKey m k).isSome) : (upsert m k v).map Prod.fst = m.map Prod.fst := by
  induction m with
  | nil => simp [lookupKey] at h
  | cons p rest ih =>
      by_cases h2 : k = p.1
      · simp [upsert, h2]
      · simp only [lookupKey, if_neg h2] at h
        simp [upsert, h2, ih h]

theorem upsert_keys_of_none {β : Type} (m : List (String × β)) (k : String) (v : β)
    (h : lookupKey m k = none) : (upsert m k v).map Prod.fst = m.map Prod.fst ++ [k] := by
  induction m with
  | nil => simp [upsert]
  | cons p rest ih =>
      by_cases h2 : k = p.1
      · simp [lookupKey, h2] at h
      · simp only [lookupKey, if_neg h2] at h
        simp [upsert, h2, ih h]

theorem upsert_keys_nodup {β : Type} (m : List (String × β)) (k : String) (v : β)
    (h : (m.map Prod.fst).Nodup) : ((upsert m k v).map Prod.fst).Nodup := by
  cases hl : lookupKey m k with
  | some w =>
      rw [upsert_keys_of_isSome m k v (by simp [hl])]
      exact h
  | none =>
      rw [upsert_keys_of_none m k v hl]
      refine List.Nodup.append h (List.nodup_singleton k) ?_
      intro x hx hx2
      simp at hx2
      subst hx2
      have := lookupKey_isSome_of_mem m x hx
      simp [hl] at this

/-! ## ASCII lowercasing (model of std::tolower applied through std::transform) -/

def lowerChar (c : Char) : Char :=
  if c = 'A' then 'a' else
  if c = 'B' then 'b' else
  if c = 'C' then 'c' else
  if c = 'D' then 'd' else
  if c = 'E' then 'e' else
  if c = 'F' then 'f' else
  if c = 'G' then 'g' else
  if c = 'H' then 'h' else
  if c = 'I' then 'i' else
  if c = 'J' then 'j' else
  if c = 'K' then 'k' else
  if c = 'L' then 'l' else
  if c = 'M' then 'm' else
  if c = 'N' then 'n' else
  if c = 'O' then 'o' else
  if c = 'P' then 'p' else
  if c = 'Q' then 'q' else
  if c = 'R' then 'r' else
  if c = 'S' then 's' else
  if c = 'T' then 't' else
  if c = 'U' then 'u' else
  if c = 'V' then 'v' else
  if c = 'W' then 'w' else
  if c = 'X' then 'x' else
  if c = 'Y' then 'y' else
  if c = 'Z' then 'z' else
  c

def lowerStr (s : String) : String := String.mk (s.data.map lowerChar)

theorem lowerChar_idem (c : Char) : lowerChar (lowerChar c) = lowerChar c := by
  by_cases h0 : c = 'A'
  · subst h0; decide
  by_cases h1 : c = 'B'
  · subst h1; decide
  by_cases h2 : c = 'C'
  · subst h2; decide
  by_cases h3 : c = 'D'
  · subst h3; decide
  by_cases h4 : c = 'E'
  · subst h4; decide
  by_cases h5 : c = 'F'
  · subst h5; decide
  by_cases h6 : c = 'G'
  · subst h6; decide
  by_cases h7 : c = 'H'
  · subst h7; decide
  by_cases h8 : c = 'I'
  · subst h8; decide
  by_cases h9 : c = 'J'
  · subst h9; decide
  by_cases h10 : c = 'K'
  · subst h10; decide
  by_cases h11 : c = 'L'
  · subst h11; decide
  by_cases h12 : c = 'M'
  · subst h12; decide
  by_cases h13 : c = 'N'
  · subst h13; decide
  by_cases h14 : c = 'O'
  · subst h14; decide
  by_cases h15 : c = 'P'
  · subst h15; decide
  by_cases h16 : c = 'Q'
  · subst h16; decide
  by_cases h17 : c = 'R'
  · subst h17; decide
  by_cases h18 : c = 'S'
  · subst h18; decide
  by_cases h19 : c = 'T'
  · subst h19; decide
  by_cases h20 : c = 'U'
  · subst h20; decide
  by_cases h21 : c = 'V'
  · subst h21; decide
  by_cases h22 : c = 'W'
  · subst h22; decide
  by_cases h23 : c = 'X'
  · subst h23; decide
  by_cases h24 : c = 'Y'
  · subst h24; decide
  by_cases h25 : c = 'Z'
  · subst h25; decide
  simp only [lowerChar, if_neg h0, if_neg h1, if_neg h2, if_neg h3, if_neg h4, if_neg h5, if_neg h6, if_neg h7, if_neg h8, if_neg h9, if_neg h10, if_neg h11, if_neg h12, if_neg h13, if_neg h14, if_neg h15, if_neg h16, if_neg h17, if_neg h18, if_neg h19, if_neg h20, if_neg h21, if_neg h22, if_neg h23, if_neg h24, if_neg h25]

theorem lowerStr_idem (s : String) : lowerStr (lowerStr s) = lowerStr s := by
  simp only [lowerStr, List.map_map]
  congr 1
  exact List.map_congr_left (fun c _ => lowerChar_idem c)

/-- The `^[a-z]{3}$` regex used by `Area::setName` after lowercasing. -/
def isIso639 (s : String) : Bool :=
  decide (s.data.length = 3) && s.data.all (fun c => ('a' ≤ c) && (c ≤ 'z'))

theorem lowerChar_of_lower {c : Char} (h : (('a' ≤ c) && (c ≤ 'z')) = true) :
    lowerChar c = c := by
  by_cases h0 : c = 'A'
  · subst h0; exact absurd h (by decide)
  by_cases h1 : c = 'B'
  · subst h1; exact absurd h (by decide)
  by_cases h2 : c = 'C'
  · subst h2; exact absurd h (by decide)
  by_cases h3 : c = 'D'
  · subst h3; exact absurd h (by decide)
  by_cases h4 : c = 'E'
  · subst h4; exact absurd h (by decide)
  by_cases h5 : c = 'F'
  · subst h5; exact absurd h (by decide)
  by_cases h6 : c = 'G'
  · subst h6; exact absurd h (by decide)
  by_cases h7 : c = 'H'
  · subst h7; exact absurd h (by decide)
  by_cases h8 : c = 'I'
  · subst h8; exact absurd h (by decide)
  by_cases h9 : c = 'J'
  · subst h9; exact absurd h (by decide)
  by_cases h10 : c = 'K'
  · subst h10; exact absurd h (by decide)
  by_cases h11 : c = 'L'
  · subst h11; exact absurd h (by decide)
  by_cases h12 : c = 'M'
  · subst h12; exact absurd h (by decide)
  by_cases h13 : c = 'N'
  · subst h13; exact absurd h (by decide)
  by_cases h14 : c = 'O'
  · subst h14; exact absurd h (by decide)
  by_cases h15 : c = 'P'
  · subst h15; exact absurd h (by decide)
  by_cases h16 : c = 'Q'
  · subst h16; exact absurd h (by decide)
  by_cases h17 : c = 'R'
  · subst h17; exact absurd h (by decide)
  by_cases h18 : c = 'S'
  · subst h18; exact absurd h (by decide)
  by_cases h19 : c = 'T'
  · subst h19; exact absurd h (by decide)
  by_cases h20 : c = 'U'
  · subst h20; exact absurd h (by decide)
  by_cases h21 : c = 'V'
  · subst h21; exact absurd h (by decide)
  by_cases h22 : c = 'W'
  · subst h22; exact absurd h (by decide)
  by_cases h23 : c = 'X'
  · subst h23; exact absurd h (by decide)
  by_cases h24 : c = 'Y'
  · subst h24; exact absurd h (by decide)
  by_cases h25 : c = 'Z'
  · subst h25; exact absurd h (by decide)
  simp only [lowerChar, if_neg h0, if_neg h1, if_neg h2, if_neg h3, if_neg h4, if_neg h5, if_neg h6, if_neg h7, if_neg h8, if_neg h9, if_neg h10, if_neg h11, if_neg h12, if_neg h13, if_neg h14, if_neg h15, if_neg h16, if_neg h17, if_neg h18, if_neg h19, if_neg h20, if_neg h21, if_neg h22, if_neg h23, if_neg h24, if_neg h25]

theorem lowerStr_of_iso {s : String} (h : isIso639 s = true) : lowerStr s = s := by
  have h2 : ∀ c ∈ s.data, lowerChar c = c := by
    simp only [isIso639, Bool.and_eq_true, List.all_eq_true] at h
    intro c hc
    exact lowerChar_of_lower (by simpa using h.2 c hc)
  simp only [lowerStr]
  conv_rhs => rw [show s = String.mk s.data from rfl]
  congr 1
  exact (List.map_congr_left h2).trans (List.map_id s.data)

/-! ## Errors (model of the C++ exception kinds thrown by the sources) -/

inductive PopError
  /-- `std::runtime_error("Malformed file!")` -/
  | malformedFile
  /-- `std::out_of_range` escaping `cols.at(...)` ("Not enough columns in cols!") -/
  | notEnoughColumns
  /-- `std::invalid_argument` from `std::stoi` / `std::stod` / `Area::setName` -/
  | invalidArgument
  /-- out-of-bounds `values[index]` (undefined behaviour in the C++); the
      `Option`-returning embedding of the indexing surfaces it as this error -/
  | indexOutOfBounds
  /-- `nlohmann::json::type_error` (field missing from a record or of the wrong type) -/
  | typeError
deriving Repr, DecidableEq

/-! ## IEEE-754 observable results (for `Measure::getAverage`) -/

inductive DReal
  | nan
  | posInf
  | negInf
  | val (q : Rat)
deriving Repr, DecidableEq

/-- IEEE division of a double `x` by an integral count `n` (the count converts
    to double exactly): division by zero yields NaN when `x = 0`, ±infinity
    otherwise; elsewhere it is exact rational division in this model. -/
def ieeeDivByNat (x : Rat) (n : Nat) : DReal :=
  if n = 0 then (if x = 0 then DReal.nan else if 0 < x then DReal.posInf else DReal.negInf)
  else DReal.val (x / (n : Rat))

/-! ## Measure (measure.cpp) -/

structure Measure where
  code : String
  label : String
  values : List (Nat × Rat)
deriving Repr, DecidableEq

/-- `Measure::Measure(codename, label)`: lowercases the codename, empty series. -/
def Measure.create (codename label : String) : Measure :=
  ⟨lowerStr codename, label, []⟩

/-- `Measure::setValue`: upsert of a year/value pair. -/
def Measure.setValue (m : Measure) (year : Nat) (v : Rat) : Measure :=
  { m with values := upsertYear m.values year v }

/-- `Measure::getValue`: `values.at(key)`, `none` models the `std::out_of_range`. -/
def Measure.getValue (m : Measure) (year : Nat) : Option Rat :=
  lookupYear m.values year

/-- `Measure::size()`. -/
def Measure.size (m : Measure) : Nat := m.values.length

/-- `Measure::operator=`: copies codename and label from `rhs`, then upserts
    every year/value pair of `rhs` into the left-hand series. -/
def Measure.assign (lhs rhs : Measure) : Measure :=
  { code := rhs.code, label := rhs.label,
    values := rhs.values.foldl (fun acc p => upsertYear acc p.1 p.2) lhs.values }

/-- The rolling sum accumulated by `Measure::getAverage`. -/
def Measure.sumValues (m : Measure) : Rat :=
  m.values.foldl (fun acc p => acc + p.2) 0

/-- `Measure::getAverage`: `rolling_average / values.size()` with no emptiness
    guard, so an empty series performs the IEEE division `0.0 / 0`. -/
def Measure.getAverage (m : Measure) : DReal :=
  ieeeDivByNat m.sumValues m.values.length

/-- `Measure::operator==`: codename, label and data must all be equal; data is
    compared by size plus per-year lookup into the right-hand series. -/
def Measure.eqb (a b : Measure) : Bool :=
  decide (a.code = b.code) && decide (a.label = b.label) &&
  (if a.size = b.size then
     a.values.all (fun p => match b.getValue p.1 with
       | some v => decide (v = p.2)
       | none => false)
   else false)

/-! ## Area (area.cpp) -/

structure Area where
  area_code : String
  names : List (String × String)
  measures : List (String × Measure)
deriving Repr, DecidableEq

/-- `Area::Area(code)`: empty name and measure maps. -/
def Area.create (code : String) : Area := ⟨code, [], []⟩

/-- `Area::setName`: lowercase the language code, validate it against
    `^[a-z]{3}$`, then upsert; an invalid code raises `std::invalid_argument`. -/
def Area.setName (a : Area) (lang name : String) : Except PopError Area :=
  let l := lowerStr lang
  if isIso639 l then Except.ok { a with names := upsert a.names l name }
  else Except.error PopError.invalidArgument

/-- `Area::getName`: lookup by exact language key. -/
def Area.getName (a : Area) (lang : String) : Option String :=
  lookupKey a.names lang

/-- `Area::getMeasure`: case-insensitive lookup (key lowercased first). -/
def Area.getMeasure (a : Area) (key : String) : Option Measure :=
  lookupKey a.measures (lowerStr key)

/-- `Area::setMeasure`: lowercase the key; if a Measure already exists there,
    merge the incoming one into it via `Measure::operator=`, else insert. -/
def Area.setMeasure (a : Area) (key : String) (m : Measure) : Area :=
  let k := lowerStr key
  match lookupKey a.measures k with
  | some old => { a with measures := upsert a.measures k (old.assign m) }
  | none => { a with measures := upsert a.measures k m }

/-- `Area::size()`: number of measures. -/
def Area.size (a : Area) : Nat := a.measures.length

/-- `Area::operator=`: overwrite the code, `setName` every name of `rhs`
    (source wins on conflicts), then `setMeasure` every measure of `rhs`. -/
def Area.assign (lhs rhs : Area) : Except PopError Area := do
  let base : Area := { lhs with area_code := rhs.area_code }
  let withNames ← rhs.names.foldlM (fun acc p => acc.setName p.1 p.2) base
  pure (rhs.measures.foldl (fun acc p => acc.setMeasure p.1 p.2) withNames)

/-- `Area::operator==`: codes, all names and all measures must match; maps are
    compared by size plus per-key lookup into the right-hand object. -/
def Area.eqb (x y : Area) : Bool :=
  decide (x.area_code = y.area_code) &&
  (if x.names.length = y.names.length then
     x.names.all (fun p => match y.getName p.1 with
       | some v => decide (v = p.2)
       | none => false)
   else false) &&
  (if x.size = y.size then
     x.measures.all (fun p => match y.getMeasure p.1 with
       | some m => m.eqb p.2
       | none => false)
   else false)

/-! ## Area filter predicate (checkIfAreaMatchesFilter, area.cpp) -/

/-- Case-insensitive substring check, modelling the icase regex
    `^.*tok.*$` that `checkIfAreaMatchesFilter` builds from a filter token
    (its meaning for metacharacter-free tokens). -/
def matchCI (tok s : String) : Bool :=
  ((lowerStr s).data.tails.any (fun t => (lowerStr tok).data.isPrefixOf t))

/-- `checkIfAreaMatchesFilter`: a null or empty filter matches everything;
    otherwise some token must match the area code or one of the names. -/
def checkIfAreaMatchesFilter (a : Area) (filter : Option (List String)) : Bool :=
  match filter with
  | none => true
  | some f =>
      if f.isEmpty then true
      else f.any (fun tok =>
        matchCI tok a.area_code || a.names.any (fun p => matchCI tok p.2))

/-- The `filter == nullptr || filter->empty()` test used by the parsers. -/
def filterIsEmptyOrNone (f : Option (List String)) : Bool :=
  match f with
  | none => true
  | some l => l.isEmpty

/-! ## Areas registry (areas.cpp) -/

structure Areas where
  areas_container : List (String × Area)
deriving Repr, DecidableEq

def Areas.empty : Areas := ⟨[]⟩

/-- `Areas::getArea`: lookup by authority code (`none` models the throw). -/
def Areas.getArea (r : Areas) (code : String) : Option Area :=
  lookupKey r.areas_container code

/-- `Areas::setArea`: merge into an existing Area via `Area::operator=`
    (which can only fail on an invalid stored language code), else insert. -/
def Areas.setArea (r : Areas) (code : String) (a : Area) : Except PopError Areas :=
  match r.getArea code with
  | some old => do
      let merged ← old.assign a
      pure ⟨upsert r.areas_container code merged⟩
  | none => pure ⟨upsert r.areas_container code a⟩

/-- `Areas::size()`. -/
def Areas.size (r : Areas) : Nat := r.areas_container.length

/-- Registry equality Area-by-Area using `Area::operator==` (the sense in
    which the specification compares two registries). -/
def Areas.eqByArea (x y : Areas) : Bool :=
  decide (x.size = y.size) &&
  x.areas_container.all (fun p => match y.getArea p.1 with
    | some a => p.2.eqb a
    | none => false)

/-! ## Column mapping (BethYw::SourceColumnMapping) -/

/-- The enum-keyed column mapping; a missing entry makes `cols.at(...)`
    throw `std::out_of_range`. -/
structure SourceColumnMapping where
  authCode : Option String := none
  authNameEng : Option String := none
  authNameCym : Option String := none
  year : Option String := none
  value : Option String := none
  measureCode : Option String := none
  measureName : Option String := none
  singleMeasureCode : Option String := none
  singleMeasureName : Option String := none
deriving Repr, DecidableEq

/-- `cols.at(key)`: missing entries throw (Not-enough-columns). -/
def colAt (o : Option String) : Except PopError String :=
  match o with
  | some s => Except.ok s
  | none => Except.error PopError.notEnoughColumns

/-! ## CSV line model -/

/-- Structural splitting of a character list at a separator (used instead of
    `String.splitOn`, whose position-based recursion the kernel cannot
    evaluate). -/
def splitOnChar (sep : Char) : List Char → List String
  | [] => [""]
  | c :: rest =>
      let r := splitOnChar sep rest
      if c = sep then "" :: r
      else
        match r with
        | [] => [String.mk [c]]
        | s :: ss => String.mk (c :: s.data) :: ss

/-- A line split on the `','` delimiter, modelling repeated
    `std::getline(line_stream, value, ',')`. -/
def splitComma (s : String) : List String := splitOnChar ',' s.data

/-- The i-th comma-separated field; a failed `std::getline` leaves the
    erased (empty) string. -/
def fieldAt (fs : List String) (i : Nat) : String := (fs.get? i).getD ""

/-- The tokens a `while (std::getline(line_stream, s, ','))` loop collects
    after the first field has been consumed: the remaining comma-separated
    fields, except that on a line ending in `','` the final `getline` call
    extracts zero characters at end-of-input, fails, and collects nothing —
    so one trailing empty field is dropped. -/
def csvValueTokens (line : String) : List String :=
  let t := (splitComma line).tail
  if t.getLast? = some "" then t.dropLast else t

/-! ## Authority-Code CSV parser (Areas::populateFromAuthorityCodeCSV) -/

/-- One data row: first field is the code, second/third the English/Welsh
    names; the row is merged through `setArea` unless a non-empty area filter
    rejects the freshly parsed Area. -/
def authorityCodeRow (areasFilter : Option (List String)) (loadAll : Bool)
    (r : Areas) (line : String) : Except PopError Areas := do
  let fs := splitComma line
  let a0 := Area.create (fieldAt fs 0)
  let a1 ← a0.setName "eng" (fieldAt fs 1)
  let a2 ← a1.setName "cym" (fieldAt fs 2)
  if loadAll then r.setArea a2.area_code a2
  else if checkIfAreaMatchesFilter a2 areasFilter then r.setArea a2.area_code a2
  else pure r

/-- `Areas::populateFromAuthorityCodeCSV`: validate the three header columns
    against the mapping (missing mapping entries throw Not-enough-columns, a
    mismatch is a fatal Malformed-File), then fold the data rows. -/
def populateFromAuthorityCodeCSV (r : Areas) (lines : List String)
    (cols : SourceColumnMapping) (areasFilter : Option (List String)) :
    Except PopError Areas :=
  match cols.authCode, cols.authNameEng, cols.authNameCym with
  | some c0, some c1, some c2 =>
      if fieldAt (splitComma ((lines.head?).getD "")) 0 = c0 ∧
         fieldAt (splitComma ((lines.head?).getD "")) 1 = c1 ∧
         fieldAt (splitComma ((lines.head?).getD "")) 2 = c2 then
        lines.tail.foldlM (authorityCodeRow areasFilter (filterIsEmptyOrNone areasFilter)) r
      else Except.error PopError.malformedFile
  | _, _, _ => Except.error PopError.notEnoughColumns

/-! ## Numeric field parsing (std::stoi / std::stod on the data actually
    present in these files: optionally signed decimal literals) -/

def charDigit (c : Char) : Option Nat :=
  if c = '0' then some 0 else
  if c = '1' then some 1 else
  if c = '2' then some 2 else
  if c = '3' then some 3 else
  if c = '4' then some 4 else
  if c = '5' then some 5 else
  if c = '6' then some 6 else
  if c = '7' then some 7 else
  if c = '8' then some 8 else
  if c = '9' then some 9 else none

def digitsToNatGo (acc : Nat) : List Char → Option Nat
  | [] => some acc
  | c :: rest =>
      match charDigit c with
      | some d => digitsToNatGo (acc * 10 + d) rest
      | none => none

/-- `std::stoi` on a plain digit string (`none` models the
    `std::invalid_argument` thrown on non-numeric input). -/
def strToNat (l : List Char) : Option Nat :=
  match l with
  | [] => none
  | _ => digitsToNatGo 0 l

def parseSignedNat (s : String) : Option (Bool × Nat) :=
  match s.data with
  | '-' :: rest => (strToNat rest).map (fun n => (true, n))
  | l => (strToNat l).map (fun n => (false, n))

/-- `std::stod` on a plain decimal literal; `none` models the
    `std::invalid_argument` thrown on non-numeric input. -/
def parseRat (s : String) : Option Rat :=
  match splitOnChar '.' s.data with
  | [w] => (parseSignedNat w).map (fun p => if p.1 then -(p.2 : Rat) else (p.2 : Rat))
  | [w, f] =>
      match parseSignedNat w, strToNat f.data with
      | some p, some fn =>
          some (let mag : Rat := (p.2 : Rat) + (fn : Rat) / ((10 : Rat) ^ f.data.length)
                if p.1 then -mag else mag)
      | _, _ => none
  | _ => none

/-! ## Authority-by-Year CSV parser (Areas::populateFromAuthorityByYearCSV) -/

/-- The year-retention test of the by-year CSV parser: `load_all_years` is set
    exactly when the filter is null or its second component is 0, and a year
    is otherwise kept iff `start <= y && y <= end`. -/
def csvYearAllowed (yf : Option (Nat × Nat)) (y : Nat) : Bool :=
  match yf with
  | none => true
  | some (s, e) => decide (e = 0) || (decide (y ≤ e) && decide (s ≤ y))

/-- Reading the year header columns: each is `std::stoi`-parsed and, if the
    year filter retains it, recorded with its positional index. -/
def allowedYearsGo (yf : Option (Nat × Nat)) (i : Nat) :
    List String → Except PopError (List (Nat × Nat))
  | [] => Except.ok []
  | c :: rest =>
      match strToNat c.data with
      | none => Except.error PopError.invalidArgument
      | some y =>
          match allowedYearsGo yf (i + 1) rest with
          | Except.ok l =>
              Except.ok (if csvYearAllowed yf y then (i, y) :: l else l)
          | Except.error e => Except.error e

/-- Everything the per-row loop of the by-year parser needs. -/
structure YearCtx where
  measureCode : String
  measureLabel : String
  areasFilter : Option (List String)
  loadAllAreas : Bool
  allowedYears : List (Nat × Nat)
deriving Repr, DecidableEq

/-- The body of the `for (const auto &it : allowed_years)` loop: an absent
    Area silently skips the value, a failing area filter drops it, otherwise
    the value `values[index]` is upserted into the Area's named Measure,
    creating the Measure on first use. -/
def byYearApplyYear (ctx : YearCtx) (code : String) (vals : List Rat)
    (reg : Areas) (iy : Nat × Nat) : Except PopError Areas :=
  match reg.getArea code with
  | none => Except.ok reg
  | some a =>
      if ctx.loadAllAreas || checkIfAreaMatchesFilter a ctx.areasFilter then
        match vals.get? iy.1 with
        | none => Except.error PopError.indexOutOfBounds
        | some v =>
            match a.getMeasure ctx.measureCode with
            | some m =>
                let a2 := { a with
                  measures := upsert a.measures (lowerStr ctx.measureCode) (m.setValue iy.2 v) }
                Except.ok ⟨upsert reg.areas_container code a2⟩
            | none =>
                let tmpm := (Measure.create ctx.measureCode ctx.measureLabel).setValue iy.2 v
                Except.ok ⟨upsert reg.areas_container code (a.setMeasure tmpm.code tmpm)⟩
      else Except.ok reg

/-- One data row of the by-year CSV: first field is the authority code, the
    value-collection loop `std::stod`-parses the remaining collected tokens,
    then the allowed-years loop runs over them. -/
def byYearRowStep (ctx : YearCtx) (reg : Areas) (line : String) :
    Except PopError Areas := do
  let code := fieldAt (splitComma line) 0
  let vals ← (csvValueTokens line).mapM (fun s =>
    match parseRat s with
    | some v => Except.ok v
    | none => Except.error PopError.invalidArgument)
  ctx.allowedYears.foldlM (byYearApplyYear ctx code vals) reg

/-- `Areas::populateFromAuthorityByYearCSV`: the measures-filter pre-check
    decides whether to process the file at all; then header validation, the
    allowed-years map, and the per-row loop. -/
def populateFromAuthorityByYearCSV (r : Areas) (lines : List String)
    (cols : SourceColumnMapping) (areasFilter measuresFilter : Option (List String))
    (yearsFilter : Option (Nat × Nat)) : Except PopError Areas := do
  let shouldLoad ←
    match measuresFilter with
    | none => Except.ok true
    | some mf =>
        if mf.isEmpty then Except.ok true
        else do
          let smc ← colAt cols.singleMeasureCode
          Except.ok (mf.any (fun it => decide (lowerStr smc = lowerStr it)))
  if shouldLoad then do
    let measureCode ← colAt cols.singleMeasureCode
    let measureLabel ← colAt cols.singleMeasureName
    let loadAllAreas := filterIsEmptyOrNone areasFilter
    let hdr := splitComma ((lines.head?).getD "")
    let ac ← colAt cols.authCode
    if fieldAt hdr 0 = ac then do
      let ay ← allowedYearsGo yearsFilter 0 (csvValueTokens ((lines.head?).getD ""))
      lines.tail.foldlM
        (byYearRowStep ⟨measureCode, measureLabel, areasFilter, loadAllAreas, ay⟩) r
    else Except.error PopError.malformedFile
  else pure r

/-! ## Tabular-JSON parser (Areas::populateFromWelshStatsJSON) -/

/-- A field of one record of the parsed "value" array (years arrive as JSON
    strings; values arrive as strings or numbers). -/
inductive JField
  | fstr (s : String)
  | fnum (q : Rat)
deriving Repr, DecidableEq

/-- One record of the "value" array. -/
structure JRecord where
  fields : List (String × JField)
deriving Repr, DecidableEq

/-- `std::string s = data[key]`: a missing key inserts null and the
    conversion (also from a number) throws `nlohmann::json::type_error`. -/
def recGetStr (rec : JRecord) (key : String) : Except PopError String :=
  match lookupKey rec.fields key with
  | some (JField.fstr s) => Except.ok s
  | _ => Except.error PopError.typeError

/-- The VALUE field: `is_string()` values go through `std::stod`, others are
    converted to double directly (non-numbers throw type_error). -/
def recGetValue (rec : JRecord) (key : String) : Except PopError Rat :=
  match lookupKey rec.fields key with
  | some (JField.fstr s) =>
      match parseRat s with
      | some v => Except.ok v
      | none => Except.error PopError.invalidArgument
  | some (JField.fnum q) => Except.ok q
  | none => Except.error PopError.typeError

/-- The per-record data the extraction phase of the JSON parser produces. -/
structure WRecordData where
  code : String
  nameEng : String
  year : Nat
  value : Rat
  mcode : String
  mlabel : String
deriving Repr, DecidableEq

/-- The extraction phase of `populateFromWelshStatsJSON`: authority code,
    English name, year (string parsed by `std::stoi`), value, and the measure
    code/label taken from the per-record fields when both mapping keys exist,
    else from the fixed single-measure mapping entries; mapping misses throw
    Not-enough-columns, and the measure code is lowercased. -/
def welshExtract (cols : SourceColumnMapping) (rec : JRecord) :
    Except PopError WRecordData := do
  let ck ← colAt cols.authCode
  let code ← recGetStr rec ck
  let nk ← colAt cols.authNameEng
  let nameEng ← recGetStr rec nk
  let yk ← colAt cols.year
  let ys ← recGetStr rec yk
  let year ← match strToNat ys.data with
    | some y => Except.ok y
    | none => Except.error PopError.invalidArgument
  let vk ← colAt cols.value
  let value ← recGetValue rec vk
  let mcml ←
    match cols.measureCode, cols.measureName with
    | some mct, some mnt => do
        let mc ← recGetStr rec mct
        let mn ← recGetStr rec mnt
        Except.ok (mc, mn)
    | _, _ => do
        let mc ← colAt cols.singleMeasureCode
        let mn ← colAt cols.singleMeasureName
        Except.ok (mc, mn)
  Except.ok ⟨code, nameEng, year, value, lowerStr mcml.1, mcml.2⟩

/-- The year-retention test of the JSON parser: all years load exactly when
    the filter is null or its second component is 0, otherwise
    `start <= y && y <= end`. -/
def jsonYearAllowed (yf : Option (Nat × Nat)) (y : Nat) : Bool :=
  match yf with
  | none => true
  | some (s, e) => decide (e = 0) || (decide (s ≤ y) && decide (y ≤ e))

/-- The measures-filter test of the JSON parser: a null or empty filter
    matches, otherwise some entry must equal the (lowercased) record measure
    code after lowercasing. -/
def measureFilterMatches (mf : Option (List String)) (mcode : String) : Bool :=
  match mf with
  | none => true
  | some l =>
      if l.isEmpty then true
      else l.any (fun it => decide (lowerStr it = mcode))

/-- Processing of a single record of the "value" array: filter on year and
    measure; an existing Area (passing the area filter) receives the value in
    its named Measure (created on first use); a missing Area is freshly built
    from code and English name, filtered, and inserted with its first value. -/
def welshProcessRecord (cols : SourceColumnMapping)
    (areasFilter measuresFilter : Option (List String))
    (yearsFilter : Option (Nat × Nat)) (reg : Areas) (rec : JRecord) :
    Except PopError Areas := do
  let d ← welshExtract cols rec
  let loadAllAreas := filterIsEmptyOrNone areasFilter
  if jsonYearAllowed yearsFilter d.year && measureFilterMatches measuresFilter d.mcode then
    match reg.getArea d.code with
    | some a =>
        if loadAllAreas || checkIfAreaMatchesFilter a areasFilter then
          match a.getMeasure d.mcode with
          | some m =>
              let a2 := { a with
                measures := upsert a.measures (lowerStr d.mcode) (m.setValue d.year d.value) }
              Except.ok ⟨upsert reg.areas_container d.code a2⟩
          | none =>
              let nm := (Measure.create d.mcode d.mlabel).setValue d.year d.value
              Except.ok ⟨upsert reg.areas_container d.code (a.setMeasure nm.code nm)⟩
        else Except.ok reg
    | none => do
        let a1 ← (Area.create d.code).setName "eng" d.nameEng
        if loadAllAreas || checkIfAreaMatchesFilter a1 areasFilter then
          let nm := (Measure.create d.mcode d.mlabel).setValue d.year d.value
          reg.setArea d.code (a1.setMeasure nm.code nm)
        else Except.ok reg
  else Except.ok reg

/-- `Areas::populateFromWelshStatsJSON`: fold record processing over the
    "value" array. -/
def populateFromWelshStatsJSON (r : Areas) (recs : List JRecord)
    (cols : SourceColumnMapping) (areasFilter measuresFilter : Option (List String))
    (yearsFilter : Option (Nat × Nat)) : Except PopError Areas :=
  recs.foldlM (welshProcessRecord cols areasFilter measuresFilter yearsFilter) r

/-! ## JSON serialization (to_json in area.cpp, Areas::toJSON in areas.cpp) -/

/-- The nlohmann::json values the serialization builds. -/
inductive J
  | null
  | str (s : String)
  | num (q : Rat)
  | obj (fields : List (String × J))

/-- `json::emplace`: inserts only if the key is absent; a null value first
    becomes an object. -/
def jemplace (j : J) (k : String) (v : J) : J :=
  match j with
  | J.obj l => if (lookupKey l k).isSome then J.obj l else J.obj (l ++ [(k, v)])
  | _ => J.obj [(k, v)]

/-- Lookup of a key in an object (`none` on non-objects). -/
def jLookup (j : J) (k : String) : Option J :=
  match j with
  | J.obj l => lookupKey l k
  | _ => none

/-- The "names" object of `to_json`: emplaced from a default-constructed
    (null) json, so zero names leave it null. -/
def namesToJSON (names : List (String × String)) : J :=
  names.foldl (fun j p => jemplace j p.1 (J.str p.2)) J.null

/-- `Measure::getValuesAsJSON`: year (as `std::to_string`) to value. -/
def Measure.getValuesAsJSON (m : Measure) : J :=
  m.values.foldl (fun j p => jemplace j (toString p.1) (J.num p.2)) J.null

/-- The "measures" object of `to_json`. -/
def measuresToJSON (measures : List (String × Measure)) : J :=
  measures.foldl (fun j p => jemplace j p.1 p.2.getValuesAsJSON) J.null

/-- `to_json(j, area)` builds this object for one Area: always a "names"
    entry, and a "measures" entry only when the Area has measures. -/
def areaToJSON (a : Area) : J :=
  let base := jemplace J.null "names" (namesToJSON a.names)
  if a.measures.isEmpty then base
  else jemplace base "measures" (measuresToJSON a.measures)

/-- The json object `Areas::toJSON` accumulates by calling `to_json` per
    Area: each Area is emplaced under its own authority code. -/
def Areas.toJSONTree (r : Areas) : J :=
  r.areas_container.foldl (fun j p => jemplace j p.2.area_code (areaToJSON p.2)) J.null

def quoteJ (s : String) : String := "\"" ++ s ++ "\""

mutual

def dumpJ : J → String
  | J.null => "null"
  | J.str s => quoteJ s
  | J.num q => toString q
  | J.obj l => "\x7b" ++ dumpFields l ++ "\x7d"

def dumpFields : List (String × J) → String
  | [] => ""
  | [(k, v)] => quoteJ k ++ ":" ++ dumpJ v
  | (k, v) :: rest => quoteJ k ++ ":" ++ dumpJ v ++ "," ++ dumpFields rest

end

/-- `Areas::toJSON`: dump the accumulated object, mapping the "null" dump of
    an empty registry to the literal empty-object string. -/
def Areas.toJSON (r : Areas) : String :=
  if dumpJ r.toJSONTree = "null" then "\x7b\x7d" else dumpJ r.toJSONTree

/-! ## Concrete fixtures used by the claim theorems -/

/-- Column mapping of a single-measure by-year CSV dataset. -/
def byYearCols : SourceColumnMapping :=
  { authCode := some "code", singleMeasureCode := some "pop",
    singleMeasureName := some "Population" }

/-- A registry already holding Area `W1` named "Test" (as the Authority-Code
    parser would have left it), with no measures. -/
def regWithW1 : Areas := ⟨[("W1", ⟨"W1", [("eng", "Test")], []⟩)]⟩

/-- Reads one value out of a parser result: the year `y` of measure `mc` of
    area `code`, `none` when any step is missing or the parse failed. -/
def importedValue (res : Except PopError Areas) (code mc : String) (y : Nat) : Option Rat :=
  match res with
  | Except.ok r =>
      match r.getArea code with
      | some a =>
          match a.getMeasure mc with
          | some m => m.getValue y
          | none => none
      | none => none
  | Except.error _ => none

/-! ## Claim C1 -/

/-- **C1.** The claim states `Measure::getAverage` returns 0 for an empty
    series and never fails.  The code computes `rolling_average /
    values.size()` with no emptiness guard, so an empty series performs the
    IEEE division `0.0 / 0`, which is NaN — not 0 — contradicting both the
    claim and the function's own documentation ("or 0 if it cannot be
    calculated").  For a non-empty series the arithmetic mean is returned, as
    the third conjunct shows on a one-point series. -/
theorem getAverage_empty_is_nan_not_zero :
    (Measure.create "pop" "Population").getAverage = DReal.nan ∧
    DReal.nan ≠ DReal.val 0 ∧
    ((Measure.create "pop" "Population").setValue 2000 5).getAverage = DReal.val 5 := by
  refine ⟨by decide, by decide, ?_⟩
  show ieeeDivByNat _ _ = _
  norm_num [Measure.getAverage, Measure.setValue, Measure.sumValues, Measure.create,
    ieeeDivByNat, upsertYear]

/-! ## Claim C2 -/

/-- **C2.** The claim states a year is imported iff the filter is the
    `start = end = 0` sentinel or `start ≤ y ≤ end`.  Both parsers actually
    set their `load_all_years` flag from `end == 0` alone, ignoring `start`:
    for the filter `(5, 0)` — not the claimed sentinel, with an empty range
    `[5, 0]` — year 2000 is nevertheless retained by both year tests, and a
    full run of the by-year CSV parser on header `code,2000`, row `W1,10`
    with that filter imports value 10 for year 2000 into area `W1`. -/
theorem yearFilter_sentinel_is_end_zero_only :
    csvYearAllowed (some (5, 0)) 2000 = true ∧
    jsonYearAllowed (some (5, 0)) 2000 = true ∧
    ((5, 0) : Nat × Nat) ≠ ((0, 0) : Nat × Nat) ∧
    ¬(5 ≤ 2000 ∧ 2000 ≤ (0 : Nat)) ∧
    importedValue (populateFromAuthorityByYearCSV regWithW1 ["code,2000", "W1,10"]
      byYearCols none none (some (5, 0))) "W1" "pop" 2000 = some 10 := by
  exact ⟨by decide, by decide, by decide, by decide, by decide⟩

/-! ## Claim C8 -/

/-- **C8.** Measure codename handling is case-insensitive end to end: for any
    Area, any Measure and any two keys equal up to letter case,
    `setMeasure k₁ m` followed by `getMeasure k₂` succeeds and returns the
    state obtained by merging `m` at the lowercased codename (the merge of
    `Measure::operator=` into an existing Measure, or `m` itself on first
    use). -/
theorem setMeasure_getMeasure_case_insensitive (a : Area) (m : Measure) (k1 k2 : String)
    (h : lowerStr k1 = lowerStr k2) :
    (a.setMeasure k1 m).getMeasure k2 =
      some (match a.getMeasure k1 with
            | some old => old.assign m
            | none => m) := by
  unfold Area.setMeasure Area.getMeasure
  rw [← h]
  cases hl : lookupKey a.measures (lowerStr k1) with
  | some old => simp [hl, lookupKey_upsert_self]
  | none => simp [hl, lookupKey_upsert_self]

/-- Witness for C8 at `"Pop"` / `"POP"` on an empty Area. -/
theorem setMeasure_getMeasure_case_insensitive_witness :
    ((Area.create "W06000023").setMeasure "Pop"
        (Measure.create "Pop" "Population")).getMeasure "POP"
      = some (Measure.create "Pop" "Population") := by
  have h := setMeasure_getMeasure_case_insensitive (Area.create "W06000023")
    (Measure.create "Pop" "Population") "Pop" "POP" (by decide)
  exact h

/-! ## Small monadic helper lemmas -/

theorem except_bind_ok {α β : Type} (a : α) (f : α → Except PopError β) :
    (Except.ok a >>= f) = f a := rfl

theorem except_bind_err {α β : Type} (e : PopError) (f : α → Except PopError β) :
    ((Except.error e : Except PopError α) >>= f) = Except.error e := rfl

theorem foldlM_const_of_fix {α : Type} (f : Areas → α → Except PopError Areas)
    (reg : Areas) (l : List α) (h : ∀ x ∈ l, f reg x = Except.ok reg) :
    l.foldlM f reg = Except.ok reg := by
  induction l with
  | nil => rfl
  | cons a rest ih =>
      rw [List.foldlM_cons, h a (List.mem_cons_self a rest), except_bind_ok]
      exact ih (fun x hx => h x (List.mem_cons_of_mem a hx))

theorem mapM_parse_ok (l : List String)
    (h : ∀ s ∈ l, (parseRat s).isSome = true) :
    ∃ vals : List Rat,
      (l.mapM (fun s =>
        match parseRat s with
        | some v => Except.ok v
        | none => Except.error PopError.invalidArgument) :
          Except PopError (List Rat)) = Except.ok vals ∧
      vals.length = l.length := by
  induction l with
  | nil => exact ⟨[], rfl, rfl⟩
  | cons a rest ih =>
      obtain ⟨vals, hv, hlen⟩ := ih (fun s hs => h s (List.mem_cons_of_mem a hs))
      have ha := h a (List.mem_cons_self a rest)
      cases hp : parseRat a with
      | none => simp [hp] at ha
      | some v =>
          refine ⟨v :: vals, ?_, by simp [hlen]⟩
          rw [List.mapM_cons]
          simp only [hp, hv]
          rfl

/-! ## Claim C6 -/

/-- **C6.** If a non-empty measures filter is supplied and none of its
    entries case-insensitively equals the column mapping's fixed
    single-measure code, `populateFromAuthorityByYearCSV` skips the whole
    file: no rows are read and the registry is returned unchanged. -/
theorem byYear_skips_file_on_measure_filter_mismatch
    (r : Areas) (lines : List String) (cols : SourceColumnMapping)
    (areasFilter : Option (List String)) (yearsFilter : Option (Nat × Nat))
    (mf : List String) (smc : String)
    (h1 : cols.singleMeasureCode = some smc)
    (h2 : mf ≠ [])
    (h3 : ∀ t ∈ mf, lowerStr t ≠ lowerStr smc) :
    populateFromAuthorityByYearCSV r lines cols areasFilter (some mf) yearsFilter
      = Except.ok r := by
  have hempty : mf.isEmpty = false := by
    cases mf with
    | nil => exact absurd rfl h2
    | cons a rest => rfl
  have hany : (mf.any fun it => decide (lowerStr smc = lowerStr it)) = false := by
    rw [List.any_eq_false]
    intro t ht
    simp only [decide_eq_true_eq]
    exact fun hc => (h3 t ht) hc.symm
  unfold populateFromAuthorityByYearCSV
  rw [h1]
  simp only [hempty, Bool.false_eq_true, if_false, colAt, except_bind_ok, hany]
  rfl

/-- Witness for C6: filter `{"area"}` against fixed code `"pop"` leaves the
    registry untouched without reading the rows. -/
theorem byYear_skips_file_on_measure_filter_mismatch_witness :
    populateFromAuthorityByYearCSV regWithW1 ["code,2000", "W1,10"] byYearCols
      none (some ["area"]) none = Except.ok regWithW1 := by
  exact byYear_skips_file_on_measure_filter_mismatch regWithW1 ["code,2000", "W1,10"]
    byYearCols none none ["area"] "pop" rfl (by decide) (by decide)

/-! ## Claim C7 -/

/-- Every token the value-collection loop gathers is one of the row's
    comma-separated fields after the code. -/
theorem csvValueTokens_subset (line : String) :
    ∀ s ∈ csvValueTokens line, s ∈ (splitComma line).tail := by
  intro s hs
  unfold csvValueTokens at hs
  by_cases h : ((splitComma line).tail.getLast?) = some ""
  · rw [if_pos h] at hs
    exact List.dropLast_subset _ hs
  · rw [if_neg h] at hs
    exact hs

/-- **C7.** In the by-year CSV parser, a data row whose authority code has no
    Area in the registry is a silent no-op: provided the row's value fields
    are numeric (they are `std::stod`-parsed before the area lookup), every
    value of the row is dropped, no error is raised, no Area is created, and
    the registry is returned exactly unchanged. -/
theorem byYearRow_unknown_area_silently_dropped (ctx : YearCtx) (reg : Areas)
    (line : String)
    (hparse : ∀ s ∈ (splitComma line).tail, (parseRat s).isSome = true)
    (hno : reg.getArea (fieldAt (splitComma line) 0) = none) :
    byYearRowStep ctx reg line = Except.ok reg := by
  unfold byYearRowStep
  obtain ⟨vals, hv, _⟩ := mapM_parse_ok (csvValueTokens line)
    (fun s hs => hparse s (csvValueTokens_subset line s hs))
  simp only [hv, except_bind_ok]
  exact foldlM_const_of_fix _ reg ctx.allowedYears
    (fun iy _ => by simp [byYearApplyYear, hno])

/-- Witness for C7: row `ZZZ,10` against an empty registry with one retained
    year column. -/
theorem byYearRow_unknown_area_silently_dropped_witness :
    byYearRowStep ⟨"pop", "Population", none, true, [(0, 2000)]⟩ Areas.empty "ZZZ,10"
      = Except.ok Areas.empty := by
  exact byYearRow_unknown_area_silently_dropped
    ⟨"pop", "Population", none, true, [(0, 2000)]⟩ Areas.empty "ZZZ,10"
    (by decide) (by decide)

/-! ## Claim C3 -/

instance exceptDecEq {ε α : Type} [DecidableEq ε] [DecidableEq α] :
    DecidableEq (Except ε α) := fun x y =>
  match x, y with
  | Except.ok a, Except.ok b =>
      if h : a = b then isTrue (h ▸ rfl)
      else isFalse (fun hc => h (Except.ok.inj hc))
  | Except.error e, Except.error f =>
      if h : e = f then isTrue (h ▸ rfl)
      else isFalse (fun hc => h (Except.error.inj hc))
  | Except.ok _, Except.error _ => isFalse (fun hc => Except.noConfusion hc)
  | Except.error _, Except.ok _ => isFalse (fun hc => Except.noConfusion hc)

/-- Unfolding equation for `Area::setMeasure` with the lowercased key made
    explicit. -/
theorem setMeasure_eq (a : Area) (key : String) (m : Measure) :
    a.setMeasure key m = match lookupKey a.measures (lowerStr key) with
      | some old => ⟨a.area_code, a.names, upsert a.measures (lowerStr key) (old.assign m)⟩
      | none => ⟨a.area_code, a.names, upsert a.measures (lowerStr key) m⟩ := by
  cases h : lookupKey a.measures (lowerStr key) with
  | some old => simp [Area.setMeasure, h]
  | none => simp [Area.setMeasure, h]

/-- Column mapping of a Tabular-JSON dataset with per-record measure fields. -/
def welshCols : SourceColumnMapping :=
  { authCode := some "c", authNameEng := some "n", year := some "y", value := some "v",
    measureCode := some "mc", measureName := some "mn" }

/-- A record for area `W1`, year 2000, value 10, measure `pop`. -/
def welshRec : JRecord :=
  ⟨[("c", JField.fstr "W1"), ("n", JField.fstr "Test"), ("y", JField.fstr "2000"),
    ("v", JField.fstr "10"), ("mc", JField.fstr "pop"), ("mn", JField.fstr "Population")]⟩

/-- **C3 (counterexample).** The claim asserts that a record passing the year
    and measure filters whose authority code already exists in the registry
    always has its value set.  The code additionally applies the *area*
    filter to the existing Area (areas.cpp:487): with area filter `{"zzz"}`,
    the record for the existing area `W1` passes the (absent) year and
    measure filters, yet processing returns the registry unchanged and no
    measure is created. -/
theorem welsh_existing_area_claim_counterexample :
    jsonYearAllowed none 2000 = true ∧
    measureFilterMatches none "pop" = true ∧
    regWithW1.getArea "W1" = some ⟨"W1", [("eng", "Test")], []⟩ ∧
    welshProcessRecord welshCols (some ["zzz"]) none none regWithW1 welshRec
      = Except.ok regWithW1 ∧
    (⟨"W1", [("eng", "Test")], []⟩ : Area).getMeasure "pop" = none := by
  exact ⟨by decide, by decide, by decide, by decide, by decide⟩

/-- **C3 (amended).** For every Tabular-JSON record that passes the year and
    measure filters, whose authority code already exists in the registry,
    and which additionally passes the area filter (the filter is null/empty
    or the existing Area matches it), the record's value is set into that
    Area's named Measure — creating the Measure on first use — while the
    Area's existing names (and code, and every other Area) are unchanged. -/
theorem welsh_existing_area_value_set (cols : SourceColumnMapping)
    (areasFilter measuresFilter : Option (List String))
    (yearsFilter : Option (Nat × Nat)) (reg : Areas) (rec : JRecord)
    (d : WRecordData) (a : Area)
    (hx : welshExtract cols rec = Except.ok d)
    (hy : jsonYearAllowed yearsFilter d.year = true)
    (hm : measureFilterMatches measuresFilter d.mcode = true)
    (ha : reg.getArea d.code = some a)
    (hf : (filterIsEmptyOrNone areasFilter
           || checkIfAreaMatchesFilter a areasFilter) = true) :
    ∃ a2, welshProcessRecord cols areasFilter measuresFilter yearsFilter reg rec
        = Except.ok ⟨upsert reg.areas_container d.code a2⟩ ∧
      a2.names = a.names ∧
      a2.area_code = a.area_code ∧
      a2.getMeasure d.mcode = some (match a.getMeasure d.mcode with
        | some m => m.setValue d.year d.value
        | none => (Measure.create d.mcode d.mlabel).setValue d.year d.value) ∧
      (∀ c2, c2 ≠ d.code →
        Areas.getArea ⟨upsert reg.areas_container d.code a2⟩ c2 = reg.getArea c2) := by
  unfold welshProcessRecord
  rw [hx, except_bind_ok]
  simp only [hy, hm, Bool.and_self, if_true]
  rw [ha]
  simp only [hf, if_true]
  cases hmm : a.getMeasure d.mcode with
  | some m =>
      dsimp only
      refine ⟨⟨a.area_code, a.names,
        upsert a.measures (lowerStr d.mcode) (m.setValue d.year d.value)⟩, rfl, rfl, rfl, ?_, ?_⟩
      · show lookupKey (upsert a.measures (lowerStr d.mcode) (m.setValue d.year d.value))
          (lowerStr d.mcode) = _
        rw [lookupKey_upsert_self]
      · intro c2 hc2
        show lookupKey (upsert reg.areas_container d.code _) c2 = _
        rw [lookupKey_upsert_ne _ _ _ _ hc2]
        rfl
  | none =>
      dsimp only
      have hsm : a.setMeasure ((Measure.create d.mcode d.mlabel).setValue d.year d.value).code
            ((Measure.create d.mcode d.mlabel).setValue d.year d.value)
          = ⟨a.area_code, a.names,
             upsert a.measures (lowerStr d.mcode)
               ((Measure.create d.mcode d.mlabel).setValue d.year d.value)⟩ := by
        have hcode : ((Measure.create d.mcode d.mlabel).setValue d.year d.value).code
            = lowerStr d.mcode := rfl
        rw [setMeasure_eq, hcode, lowerStr_idem]
        rw [show lookupKey a.measures (lowerStr d.mcode) = none from hmm]
      rw [hsm]
      refine ⟨⟨a.area_code, a.names,
        upsert a.measures (lowerStr d.mcode)
          ((Measure.create d.mcode d.mlabel).setValue d.year d.value)⟩, rfl, rfl, rfl, ?_, ?_⟩
      · show lookupKey (upsert a.measures (lowerStr d.mcode) _) (lowerStr d.mcode) = _
        rw [lookupKey_upsert_self]
      · intro c2 hc2
        show lookupKey (upsert reg.areas_container d.code _) c2 = _
        rw [lookupKey_upsert_ne _ _ _ _ hc2]
        rfl

/-- Witness for the amended C3: the `W1` record with no area filter lands
    value 10 at year 2000 in measure `pop` of the existing Area. -/
theorem welsh_existing_area_value_set_witness :
    ∃ a2, welshProcessRecord welshCols none none none regWithW1 welshRec
        = Except.ok ⟨upsert regWithW1.areas_container "W1" a2⟩ ∧
      a2.names = [("eng", "Test")] ∧
      a2.area_code = "W1" ∧
      a2.getMeasure "pop"
        = some ((Measure.create "pop" "Population").setValue 2000 10) := by
  obtain ⟨a2, h1, h2, h3, h4, h5⟩ := welsh_existing_area_value_set welshCols none none none
    regWithW1 welshRec ⟨"W1", "Test", 2000, 10, "pop", "Population"⟩
    ⟨"W1", [("eng", "Test")], []⟩ (by decide) (by decide) (by decide) (by decide) (by decide)
  exact ⟨a2, h1, h2, h3, h4⟩

/-! ## Claim C10 -/

theorem mapM_parse_err_kind (l : List String) (e : PopError)
    (h : (l.mapM (fun s =>
        match parseRat s with
        | some v => Except.ok v
        | none => Except.error PopError.invalidArgument) :
          Except PopError (List Rat)) = Except.error e) :
    e = PopError.invalidArgument := by
  induction l generalizing e with
  | nil => cases h
  | cons s rest ih =>
      rw [List.mapM_cons] at h
      cases hp : parseRat s with
      | none =>
          simp only [hp, except_bind_err] at h
          exact (Except.error.inj h).symm
      | some v =>
          simp only [hp, except_bind_ok] at h
          cases hr : (rest.mapM (fun s =>
              match parseRat s with
              | some v => Except.ok v
              | none => Except.error PopError.invalidArgument) :
                Except PopError (List Rat)) with
          | error e2 =>
              rw [hr, except_bind_err] at h
              exact Except.error.inj h ▸ ih e2 hr
          | ok xs =>
              rw [hr, except_bind_ok] at h
              cases h

theorem mapM_parse_ok_length (l : List String) (vals : List Rat)
    (h : (l.mapM (fun s =>
        match parseRat s with
        | some v => Except.ok v
        | none => Except.error PopError.invalidArgument) :
          Except PopError (List Rat)) = Except.ok vals) :
    vals.length = l.length := by
  induction l generalizing vals with
  | nil =>
      cases h
      rfl
  | cons s rest ih =>
      rw [List.mapM_cons] at h
      cases hp : parseRat s with
      | none =>
          simp only [hp, except_bind_err] at h
          cases h
      | some v =>
          simp only [hp, except_bind_ok] at h
          cases hr : (rest.mapM (fun s =>
              match parseRat s with
              | some v => Except.ok v
              | none => Except.error PopError.invalidArgument) :
                Except PopError (List Rat)) with
          | error e2 => rw [hr, except_bind_err] at h; cases h
          | ok xs =>
              rw [hr, except_bind_ok] at h
              cases h
              simp [ih xs hr]

theorem byYearApplyYear_ok_shape (ctx : YearCtx) (code : String) (vals : List Rat)
    (reg : Areas) (iy : Nat × Nat) (hlt : iy.1 < vals.length) :
    byYearApplyYear ctx code vals reg iy = Except.ok reg ∨
    ∃ a2, byYearApplyYear ctx code vals reg iy
      = Except.ok ⟨upsert reg.areas_container code a2⟩ := by
  unfold byYearApplyYear
  cases ha : reg.getArea code with
  | none => exact Or.inl rfl
  | some a =>
      dsimp only
      by_cases hfil : (ctx.loadAllAreas || checkIfAreaMatchesFilter a ctx.areasFilter) = true
      · rw [if_pos hfil, List.get?_eq_get hlt]
        cases a.getMeasure ctx.measureCode with
        | some m => exact Or.inr ⟨_, rfl⟩
        | none => exact Or.inr ⟨_, rfl⟩
      · rw [if_neg hfil]
        exact Or.inl rfl

theorem byYear_fold_ok_of_bounds (ctx : YearCtx) (code : String) (vals : List Rat)
    (ay : List (Nat × Nat)) (reg : Areas)
    (hb : ∀ iy ∈ ay, iy.1 < vals.length) :
    ∃ r2, ay.foldlM (byYearApplyYear ctx code vals) reg = Except.ok r2 := by
  induction ay generalizing reg with
  | nil => exact ⟨reg, rfl⟩
  | cons iy rest ih =>
      rcases byYearApplyYear_ok_shape ctx code vals reg iy
        (hb iy (List.mem_cons_self iy rest)) with h | ⟨a2, h⟩ <;>
      · rw [List.foldlM_cons, h, except_bind_ok]
        exact ih _ (fun x hx => hb x (List.mem_cons_of_mem iy hx))

theorem byYear_fold_err_of_overflow (ctx : YearCtx) (code : String) (vals : List Rat)
    (hload : ctx.loadAllAreas = true) (ay : List (Nat × Nat)) (reg : Areas)
    (hreg : (reg.getArea code).isSome = true)
    (hbad : ∃ iy ∈ ay, vals.length ≤ iy.1) :
    ay.foldlM (byYearApplyYear ctx code vals) reg
      = Except.error PopError.indexOutOfBounds := by
  induction ay generalizing reg with
  | nil => simp at hbad
  | cons iy rest ih =>
      by_cases hlt : iy.1 < vals.length
      · obtain ⟨iy2, hmem, hle⟩ := hbad
        have hbad2 : ∃ iy2 ∈ rest, vals.length ≤ iy2.1 := by
          rcases List.mem_cons.mp hmem with h | h
          · subst h
            exact absurd hlt (by omega)
          · exact ⟨iy2, h, hle⟩
        rcases byYearApplyYear_ok_shape ctx code vals reg iy hlt with h | ⟨a2, h⟩
        · rw [List.foldlM_cons, h, except_bind_ok]
          exact ih _ hreg hbad2
        · rw [List.foldlM_cons, h, except_bind_ok]
          refine ih _ ?_ hbad2
          show (lookupKey (upsert reg.areas_container code a2) code).isSome = true
          rw [lookupKey_upsert_self]
          rfl
      · obtain ⟨a, ha⟩ := Option.isSome_iff_exists.mp hreg
        have hget : vals.get? iy.1 = none := List.get?_eq_none.mpr (by omega)
        rw [List.foldlM_cons]
        have hstep : byYearApplyYear ctx code vals reg iy
            = Except.error PopError.indexOutOfBounds := by
          unfold byYearApplyYear
          rw [show reg.getArea code = some a from ha]
          dsimp only
          rw [hload]
          simp only [Bool.true_or, if_true, hget]
        rw [hstep]
        rfl

/-- **C10.** The positional lookup `values[index]` of the by-year parser is
    in bounds exactly under the row/header alignment precondition, where the
    row's value count is the number of tokens the value-collection loop
    gathers (a trailing comma contributes none).  First conjunct: if every
    retained year column index is below that count, the row step never
    reaches the out-of-bounds branch of the `Option`-returning embedding of
    the indexing.  Second conjunct: for a (numeric-valued) row shorter than
    some retained year column index, the branch is reachable — there is a
    registry (one containing the row's Area, with no area filter in force)
    on which the row step returns the out-of-bounds error; rows that short
    are not detected or skipped. -/
theorem byYear_values_index_alignment (ctx : YearCtx) :
    (∀ reg line, (∀ iy ∈ ctx.allowedYears, iy.1 < (csvValueTokens line).length) →
        byYearRowStep ctx reg line ≠ Except.error PopError.indexOutOfBounds) ∧
    (∀ line, (∀ s ∈ csvValueTokens line, (parseRat s).isSome = true) →
        (∃ iy ∈ ctx.allowedYears, (csvValueTokens line).length ≤ iy.1) →
        ctx.loadAllAreas = true →
        ∃ reg, byYearRowStep ctx reg line = Except.error PopError.indexOutOfBounds) := by
  constructor
  · intro reg line hb
    unfold byYearRowStep
    cases hm : ((csvValueTokens line).mapM (fun s =>
        match parseRat s with
        | some v => Except.ok v
        | none => Except.error PopError.invalidArgument) :
          Except PopError (List Rat)) with
    | error e =>
        simp only [hm, except_bind_err]
        intro hc
        have := mapM_parse_err_kind _ e hm
        rw [this] at hc
        cases hc
    | ok vals =>
        have hlen := mapM_parse_ok_length _ vals hm
        simp only [hm, except_bind_ok]
        obtain ⟨r2, hr2⟩ := byYear_fold_ok_of_bounds ctx (fieldAt (splitComma line) 0)
          vals ctx.allowedYears reg (fun iy hiy => hlen ▸ hb iy hiy)
        rw [hr2]
        intro hc
        cases hc
  · intro line hparse hbad hload
    obtain ⟨vals, hv, hlen⟩ := mapM_parse_ok _ hparse
    refine ⟨⟨[(fieldAt (splitComma line) 0, Area.create (fieldAt (splitComma line) 0))]⟩, ?_⟩
    unfold byYearRowStep
    simp only [hv, except_bind_ok]
    refine byYear_fold_err_of_overflow ctx _ vals hload ctx.allowedYears _ ?_ ?_
    · show (lookupKey [(fieldAt (splitComma line) 0, Area.create _)]
        (fieldAt (splitComma line) 0)).isSome = true
      simp [lookupKey]
    · obtain ⟨iy, hmem, hle⟩ := hbad
      exact ⟨iy, hmem, by omega⟩

/-- Witness for C10: with one retained year column at index 0, row `W1,10`
    (one value) cannot hit the out-of-bounds branch, while row `W1` (no
    values) and row `W1,` (the trailing comma contributes no value — the C++
    loop's final `getline` fails) both reach it for some registry. -/
theorem byYear_values_index_alignment_witness :
    byYearRowStep ⟨"pop", "Population", none, true, [(0, 2000)]⟩ regWithW1 "W1,10"
      ≠ Except.error PopError.indexOutOfBounds ∧
    (∃ reg, byYearRowStep ⟨"pop", "Population", none, true, [(0, 2000)]⟩ reg "W1"
      = Except.error PopError.indexOutOfBounds) ∧
    (∃ reg, byYearRowStep ⟨"pop", "Population", none, true, [(0, 2000)]⟩ reg "W1,"
      = Except.error PopError.indexOutOfBounds) := by
  refine ⟨?_, ?_, ?_⟩
  · exact (byYear_values_index_alignment _).1 regWithW1 "W1,10" (by decide)
  · exact (byYear_values_index_alignment _).2 "W1" (by decide)
      ⟨(0, 2000), by decide, by decide⟩ rfl
  · exact (byYear_values_index_alignment _).2 "W1," (by decide)
      ⟨(0, 2000), by decide, by decide⟩ rfl

/-! ## Claim C4 -/

theorem lookupKey_cons_self {β : Type} (p : String × β) (rest : List (String × β)) :
    lookupKey (p :: rest) p.1 = some p.2 := by
  cases p with
  | mk k v => simp [lookupKey]

theorem lookupKey_cons_ne {β : Type} (p : String × β) (rest : List (String × β))
    (k : String) (h : k ≠ p.1) : lookupKey (p :: rest) k = lookupKey rest k := by
  cases p with
  | mk k2 v => simp only [lookupKey]; rw [if_neg h]

theorem lookupYear_cons_self {β : Type} (p : Nat × β) (rest : List (Nat × β)) :
    lookupYear (p :: rest) p.1 = some p.2 := by
  cases p with
  | mk k v => simp [lookupYear]

theorem lookupYear_cons_ne {β : Type} (p : Nat × β) (rest : List (Nat × β))
    (k : Nat) (h : k ≠ p.1) : lookupYear (p :: rest) k = lookupYear rest k := by
  cases p with
  | mk k2 v => simp only [lookupYear]; rw [if_neg h]

theorem lookupYear_eq_none_of_not_mem {β : Type} (m : List (Nat × β)) (k : Nat)
    (h : k ∉ m.map Prod.fst) : lookupYear m k = none := by
  induction m with
  | nil => rfl
  | cons p rest ih =>
      simp only [List.map_cons, List.mem_cons] at h
      push_neg at h
      rw [lookupYear_cons_ne p rest k h.1]
      exact ih h.2

theorem mem_of_lookupKey {β : Type} (l : List (String × β)) (k : String) (v : β)
    (h : lookupKey l k = some v) : (k, v) ∈ l := by
  induction l with
  | nil => cases h
  | cons p rest ih =>
      by_cases h2 : k = p.1
      · subst h2
        rw [lookupKey_cons_self] at h
        cases h
        exact (Prod.mk.eta (p := p)) ▸ List.mem_cons_self _ _
      · rw [lookupKey_cons_ne p rest k h2] at h
        exact List.mem_cons_of_mem p (ih h)

/-- First-some choice (the "source wins" combination used in the merge
    statements). -/
def orElseO {α : Type} (b a : Option α) : Option α :=
  match b with
  | some v => some v
  | none => a

/-- The measure stored after merging `mB` onto an optional existing entry. -/
def mergeAt (old : Option Measure) (mB : Measure) : Measure :=
  match old with
  | some m => m.assign mB
  | none => mB

theorem lookupKey_foldl_upsert {β : Type} (l m : List (String × β)) (k : String)
    (hnd : (l.map Prod.fst).Nodup) :
    lookupKey (l.foldl (fun acc p => upsert acc p.1 p.2) m) k
      = orElseO (lookupKey l k) (lookupKey m k) := by
  unfold orElseO
  induction l generalizing m with
  | nil => rfl
  | cons p rest ih =>
      simp only [List.map_cons, List.nodup_cons] at hnd
      rw [List.foldl_cons]
      by_cases h2 : k = p.1
      · subst h2
        have hrest : lookupKey rest p.1 = none :=
          lookupKey_eq_none_of_not_mem rest p.1 hnd.1
        rw [ih (upsert m p.1 p.2) hnd.2, hrest, lookupKey_cons_self]
        dsimp only
        rw [lookupKey_upsert_self]
      · rw [ih (upsert m p.1 p.2) hnd.2, lookupKey_cons_ne p rest k h2]
        cases hy : lookupKey rest k with
        | some v => rfl
        | none =>
            dsimp only
            exact lookupKey_upsert_ne m p.1 k p.2 h2

theorem lookupYear_foldl_upsertYear {β : Type} (l m : List (Nat × β)) (k : Nat)
    (hnd : (l.map Prod.fst).Nodup) :
    lookupYear (l.foldl (fun acc p => upsertYear acc p.1 p.2) m) k
      = orElseO (lookupYear l k) (lookupYear m k) := by
  unfold orElseO
  induction l generalizing m with
  | nil => rfl
  | cons p rest ih =>
      simp only [List.map_cons, List.nodup_cons] at hnd
      rw [List.foldl_cons]
      by_cases h2 : k = p.1
      · subst h2
        have hrest : lookupYear rest p.1 = none :=
          lookupYear_eq_none_of_not_mem rest p.1 hnd.1
        rw [ih (upsertYear m p.1 p.2) hnd.2, hrest, lookupYear_cons_self]
        dsimp only
        rw [lookupYear_upsertYear_self]
      · rw [ih (upsertYear m p.1 p.2) hnd.2, lookupYear_cons_ne p rest k h2]
        cases hy : lookupYear rest k with
        | some v => rfl
        | none =>
            dsimp only
            exact lookupYear_upsertYear_ne m p.1 k p.2 h2

/-- `Area::setName` with an already valid lowercase language key. -/
theorem setName_ok_of_iso (a : Area) (lang name : String) (h : isIso639 lang = true) :
    a.setName lang name = Except.ok ⟨a.area_code, upsert a.names lang name, a.measures⟩ := by
  simp [Area.setName, lowerStr_of_iso h, h]

theorem foldlM_setName_ok (l : List (String × String)) (a : Area)
    (h : ∀ p ∈ l, isIso639 p.1 = true) :
    l.foldlM (fun acc p => acc.setName p.1 p.2) a
      = Except.ok ⟨a.area_code, l.foldl (fun acc p => upsert acc p.1 p.2) a.names,
          a.measures⟩ := by
  induction l generalizing a with
  | nil => rfl
  | cons p rest ih =>
      rw [List.foldlM_cons, setName_ok_of_iso a p.1 p.2 (h p (List.mem_cons_self p rest)),
        except_bind_ok, ih _ (fun q hq => h q (List.mem_cons_of_mem p hq))]
      rfl

/-- The action of `Area::setMeasure` on the measure map alone. -/
def setMeasureMap (map : List (String × Measure)) (key : String) (m : Measure) :
    List (String × Measure) :=
  match lookupKey map (lowerStr key) with
  | some old => upsert map (lowerStr key) (old.assign m)
  | none => upsert map (lowerStr key) m

theorem setMeasure_as_map (a : Area) (key : String) (m : Measure) :
    a.setMeasure key m = ⟨a.area_code, a.names, setMeasureMap a.measures key m⟩ := by
  rw [setMeasure_eq]
  unfold setMeasureMap
  cases lookupKey a.measures (lowerStr key) <;> rfl

theorem foldl_setMeasure (l : List (String × Measure)) (a : Area) :
    l.foldl (fun acc p => acc.setMeasure p.1 p.2) a
      = ⟨a.area_code, a.names, l.foldl (fun acc p => setMeasureMap acc p.1 p.2) a.measures⟩ := by
  induction l generalizing a with
  | nil => rfl
  | cons p rest ih =>
      rw [List.foldl_cons, setMeasure_as_map, ih]
      rfl

theorem lookup_foldl_setMeasureMap_not_mem (l : List (String × Measure))
    (map : List (String × Measure)) (k : String)
    (hnot : k ∉ l.map Prod.fst) (hlow : ∀ p ∈ l, lowerStr p.1 = p.1) :
    lookupKey (l.foldl (fun acc p => setMeasureMap acc p.1 p.2) map) k
      = lookupKey map k := by
  induction l generalizing map with
  | nil => rfl
  | cons p rest ih =>
      simp only [List.map_cons, List.mem_cons] at hnot
      push_neg at hnot
      rw [List.foldl_cons, ih _ hnot.2 (fun q hq => hlow q (List.mem_cons_of_mem p hq))]
      have hl := hlow p (List.mem_cons_self p rest)
      unfold setMeasureMap
      rw [hl]
      cases lookupKey map p.1 with
      | some old => exact lookupKey_upsert_ne map p.1 k _ hnot.1
      | none => exact lookupKey_upsert_ne map p.1 k _ hnot.1

theorem lookup_foldl_setMeasureMap (l : List (String × Measure))
    (map : List (String × Measure)) (k : String) (mB : Measure)
    (hnd : (l.map Prod.fst).Nodup) (hlow : ∀ p ∈ l, lowerStr p.1 = p.1)
    (hk : lookupKey l k = some mB) :
    lookupKey (l.foldl (fun acc p => setMeasureMap acc p.1 p.2) map) k
      = some (mergeAt (lookupKey map k) mB) := by
  unfold mergeAt
  induction l generalizing map with
  | nil => cases hk
  | cons p rest ih =>
      simp only [List.map_cons, List.nodup_cons] at hnd
      rw [List.foldl_cons]
      by_cases h2 : k = p.1
      · subst h2
        rw [lookupKey_cons_self] at hk
        cases hk
        rw [lookup_foldl_setMeasureMap_not_mem rest _ p.1 hnd.1
          (fun q hq => hlow q (List.mem_cons_of_mem p hq))]
        have hl := hlow p (List.mem_cons_self p rest)
        unfold setMeasureMap
        rw [hl]
        cases lookupKey map p.1 with
        | some old =>
            dsimp only
            rw [lookupKey_upsert_self]
        | none =>
            dsimp only
            rw [lookupKey_upsert_self]
      · rw [lookupKey_cons_ne p rest k h2] at hk
        rw [ih _ hnd.2 (fun q hq => hlow q (List.mem_cons_of_mem p hq)) hk]
        have hl := hlow p (List.mem_cons_self p rest)
        unfold setMeasureMap
        rw [hl]
        cases lookupKey map p.1 with
        | some old =>
            dsimp only
            rw [lookupKey_upsert_ne map p.1 k _ h2]
        | none =>
            dsimp only
            rw [lookupKey_upsert_ne map p.1 k _ h2]

/-- Well-formedness of an Area as the C++ API maintains it: name keys are
    validated lowercase ISO-639-3 codes with no duplicates, measure keys are
    lowercase with no duplicates, and each measure's year series has unique
    years (always true of `std::map` keys). -/
def Area.wfb (a : Area) : Bool :=
  a.names.all (fun p => isIso639 p.1) &&
  decide ((a.names.map Prod.fst).Nodup) &&
  a.measures.all (fun p =>
    decide (lowerStr p.1 = p.1) && decide ((p.2.values.map Prod.fst).Nodup)) &&
  decide ((a.measures.map Prod.fst).Nodup)

/-- **C4.** Union-merge invariant: merging Areas `A` then `B` (same authority
    code) into a registry not yet holding that code yields an Area whose name
    map is the key-union of `A`'s and `B`'s names with `B` winning ties, and,
    for every measure codename present in both, a year series that is the
    key-union of `A`'s and `B`'s series with `B` winning on shared years. -/
theorem setArea_union_merge (r : Areas) (code : String) (A B : Area)
    (hr : r.getArea code = none)
    (hA : A.area_code = code) (hB : B.area_code = code)
    (hwA : A.wfb = true) (hwB : B.wfb = true) :
    ∃ r1 r2 C,
      r.setArea code A = Except.ok r1 ∧
      r1.setArea code B = Except.ok r2 ∧
      r2.getArea code = some C ∧
      (∀ lang, lookupKey C.names lang
        = orElseO (lookupKey B.names lang) (lookupKey A.names lang)) ∧
      (∀ k mA mB, lookupKey A.measures k = some mA →
        lookupKey B.measures k = some mB →
        ∃ mC, lookupKey C.measures k = some mC ∧
          ∀ yr, lookupYear mC.values yr
            = orElseO (lookupYear mB.values yr) (lookupYear mA.values yr)) := by
  simp only [Area.wfb, Bool.and_eq_true, List.all_eq_true, decide_eq_true_eq,
    Bool.and_eq_true] at hwA hwB
  obtain ⟨⟨⟨hBiso, hBnamesnd⟩, hBmeas⟩, hBmeasnd⟩ := hwB
  have h1 : r.setArea code A = Except.ok ⟨upsert r.areas_container code A⟩ := by
    unfold Areas.setArea
    rw [hr]
    rfl
  have hget1 : (Areas.mk (upsert r.areas_container code A)).getArea code = some A := by
    show lookupKey (upsert r.areas_container code A) code = some A
    exact lookupKey_upsert_self _ _ _
  have hassign : A.assign B = Except.ok
      ⟨B.area_code,
       B.names.foldl (fun acc p => upsert acc p.1 p.2) A.names,
       B.measures.foldl (fun acc p => setMeasureMap acc p.1 p.2) A.measures⟩ := by
    simp only [Area.assign]
    rw [foldlM_setName_ok B.names _ hBiso, except_bind_ok, foldl_setMeasure]
    rfl
  have h2 : (Areas.mk (upsert r.areas_container code A)).setArea code B
      = Except.ok ⟨upsert (upsert r.areas_container code A) code
          ⟨B.area_code,
           B.names.foldl (fun acc p => upsert acc p.1 p.2) A.names,
           B.measures.foldl (fun acc p => setMeasureMap acc p.1 p.2) A.measures⟩⟩ := by
    unfold Areas.setArea
    rw [hget1]
    dsimp only
    rw [hassign]
    rfl
  refine ⟨⟨upsert r.areas_container code A⟩, _,
    ⟨B.area_code,
     B.names.foldl (fun acc p => upsert acc p.1 p.2) A.names,
     B.measures.foldl (fun acc p => setMeasureMap acc p.1 p.2) A.measures⟩,
    h1, h2, ?_, ?_, ?_⟩
  · show lookupKey (upsert (upsert r.areas_container code A) code _) code = _
    exact lookupKey_upsert_self _ _ _
  · intro lang
    exact lookupKey_foldl_upsert B.names A.names lang hBnamesnd
  · intro k mA mB hmA hmB
    have hlow : ∀ p ∈ B.measures, lowerStr p.1 = p.1 :=
      fun p hp => (hBmeas p hp).1
    refine ⟨mA.assign mB, ?_, ?_⟩
    · have := lookup_foldl_setMeasureMap B.measures A.measures k mB hBmeasnd hlow hmB
      rw [this, hmA]
      rfl
    · intro yr
      have hndB : (mB.values.map Prod.fst).Nodup :=
        (hBmeas (k, mB) (mem_of_lookupKey B.measures k mB hmB)).2
      show lookupYear (mB.values.foldl (fun acc p => upsertYear acc p.1 p.2) mA.values) yr = _
      exact lookupYear_foldl_upsertYear mB.values mA.values yr hndB

/-- First merge operand for the C4 witness. -/
def unionA : Area :=
  ⟨"W1", [("eng", "Old"), ("cym", "Hen")],
   [("pop", ⟨"pop", "P", [(1999, 1), (2000, 2)]⟩)]⟩

/-- Second merge operand for the C4 witness. -/
def unionB : Area :=
  ⟨"W1", [("eng", "New")],
   [("pop", ⟨"pop", "P2", [(2000, 5), (2001, 7)]⟩)]⟩

/-- Witness for C4: `B` wins the shared "eng" name and the shared year 2000,
    while `A`'s "cym" name and year 1999 and `B`'s year 2001 survive. -/
theorem setArea_union_merge_witness :
    ∃ r1 r2 C,
      Areas.empty.setArea "W1" unionA = Except.ok r1 ∧
      r1.setArea "W1" unionB = Except.ok r2 ∧
      r2.getArea "W1" = some C ∧
      lookupKey C.names "eng" = some "New" ∧
      lookupKey C.names "cym" = some "Hen" ∧
      ∃ mC, lookupKey C.measures "pop" = some mC ∧
        lookupYear mC.values 1999 = some 1 ∧
        lookupYear mC.values 2000 = some 5 ∧
        lookupYear mC.values 2001 = some 7 := by
  obtain ⟨r1, r2, C, h1, h2, h3, h4, h5⟩ := setArea_union_merge Areas.empty "W1"
    unionA unionB rfl rfl rfl (by decide) (by decide)
  obtain ⟨mC, hm, hy⟩ := h5 "pop" ⟨"pop", "P", [(1999, 1), (2000, 2)]⟩
    ⟨"pop", "P2", [(2000, 5), (2001, 7)]⟩ rfl rfl
  refine ⟨r1, r2, C, h1, h2, h3, ?_, ?_, mC, hm, ?_, ?_, ?_⟩
  · rw [h4 "eng"]
    decide
  · rw [h4 "cym"]
    decide
  · rw [hy 1999]
    decide
  · rw [hy 2000]
    decide
  · rw [hy 2001]
    decide

/-! ## Claim C9 -/

theorem lookupKey_map_val {β γ : Type} (l : List (String × β)) (g : β → γ) (k : String) :
    lookupKey (l.map (fun p => (p.1, g p.2))) k = (lookupKey l k).map g := by
  induction l with
  | nil => rfl
  | cons p rest ih =>
      by_cases h : k = p.1
      · subst h
        rw [List.map_cons,
          show lookupKey ((p.1, g p.2) :: rest.map (fun p => (p.1, g p.2))) p.1
            = some (g p.2) from lookupKey_cons_self (p.1, g p.2) _,
          show lookupKey (p :: rest) p.1 = some p.2 from lookupKey_cons_self p rest]
        rfl
      · rw [List.map_cons,
          show lookupKey ((p.1, g p.2) :: rest.map (fun p => (p.1, g p.2))) k
            = lookupKey (rest.map (fun p => (p.1, g p.2))) k from
              lookupKey_cons_ne (p.1, g p.2) _ k h,
          lookupKey_cons_ne p rest k h]
        exact ih

theorem foldl_jemplace_acc {α : Type} (key : α → String) (val : α → J) (l : List α) :
    ∀ acc : List (String × J),
    (acc.map Prod.fst ++ l.map key).Nodup →
    l.foldl (fun j p => jemplace j (key p) (val p)) (J.obj acc)
      = J.obj (acc ++ l.map (fun p => (key p, val p))) := by
  induction l with
  | nil =>
      intro acc _
      simp
  | cons p rest ih =>
      intro acc hnd
      have hfresh : lookupKey acc (key p) = none := by
        apply lookupKey_eq_none_of_not_mem
        intro hc
        have hdisj := (List.nodup_append.mp (by simpa using hnd)).2.2
        exact hdisj hc (List.mem_cons_self _ _)
      rw [List.foldl_cons,
        show jemplace (J.obj acc) (key p) (val p) = J.obj (acc ++ [(key p, val p)]) from by
          simp [jemplace, hfresh]]
      rw [ih (acc ++ [(key p, val p)]) (by
        simp only [List.map_append, List.map_cons, List.map_nil, List.append_assoc]
        simpa using hnd)]
      simp

theorem foldl_jemplace_null_cons {α : Type} (key : α → String) (val : α → J)
    (p : α) (rest : List α) (hnd : ((p :: rest).map key).Nodup) :
    (p :: rest).foldl (fun j q => jemplace j (key q) (val q)) J.null
      = J.obj ((p :: rest).map (fun q => (key q, val q))) := by
  rw [List.foldl_cons, show jemplace J.null (key p) (val p)
      = J.obj [(key p, val p)] from rfl]
  rw [foldl_jemplace_acc key val rest [(key p, val p)] (by simpa using hnd)]
  simp

/-- Well-formedness of a registry for serialization: unique authority codes
    that agree with the stored Areas' own codes (as `setArea` keeps them),
    unique name/measure keys and unique printed years per measure. -/
def Areas.wfb (r : Areas) : Bool :=
  decide ((r.areas_container.map Prod.fst).Nodup) &&
  r.areas_container.all (fun p =>
    decide (p.2.area_code = p.1) &&
    decide ((p.2.names.map Prod.fst).Nodup) &&
    decide ((p.2.measures.map Prod.fst).Nodup) &&
    p.2.measures.all (fun q =>
      decide ((q.2.values.map (fun z => toString z.1)).Nodup)))

theorem namesToJSON_obj (names : List (String × String))
    (hne : names ≠ []) (hnd : (names.map Prod.fst).Nodup) :
    namesToJSON names = J.obj (names.map (fun p => (p.1, J.str p.2))) := by
  cases names with
  | nil => exact absurd rfl hne
  | cons p rest =>
      exact foldl_jemplace_null_cons (fun q => q.1) (fun q => J.str q.2) p rest
        (by simpa using hnd)

theorem getValuesAsJSON_obj (m : Measure) (hne : m.values ≠ [])
    (hnd : (m.values.map (fun z => toString z.1)).Nodup) :
    m.getValuesAsJSON = J.obj (m.values.map (fun q => (toString q.1, J.num q.2))) := by
  unfold Measure.getValuesAsJSON
  cases hv : m.values with
  | nil => exact absurd hv hne
  | cons p rest =>
      rw [hv] at hnd
      exact foldl_jemplace_null_cons (fun q => toString q.1) (fun q => J.num q.2) p rest
        (by simpa using hnd)

theorem measuresToJSON_obj (measures : List (String × Measure))
    (hne : measures ≠ []) (hnd : (measures.map Prod.fst).Nodup) :
    measuresToJSON measures
      = J.obj (measures.map (fun p => (p.1, p.2.getValuesAsJSON))) := by
  cases measures with
  | nil => exact absurd rfl hne
  | cons p rest =>
      exact foldl_jemplace_null_cons (fun q => q.1) (fun q => q.2.getValuesAsJSON) p rest
        (by simpa using hnd)

/-- **C9.** Shape of the JSON serialization for a well-formed registry:
    a registry with zero Areas serializes as the empty-object string; every
    Area code maps to an object that always carries a "names" entry (the
    object of its language/name pairs when any name exists), carries a
    "measures" entry exactly when the Area holds at least one Measure, and
    the "measures" entry maps each codename to that Measure's object of
    year-string/numeric-value pairs. -/
theorem serialization_shape (r : Areas) (h : r.wfb = true) :
    (r.areas_container = [] → r.toJSON = "\x7b\x7d") ∧
    (∀ code a, r.getArea code = some a →
      ∃ jfields, jLookup r.toJSONTree code = some (J.obj jfields) ∧
        lookupKey jfields "names" = some (namesToJSON a.names) ∧
        (a.names ≠ [] → namesToJSON a.names
          = J.obj (a.names.map (fun p => (p.1, J.str p.2)))) ∧
        (a.measures = [] → lookupKey jfields "measures" = none) ∧
        (a.measures ≠ [] →
          lookupKey jfields "measures" = some (measuresToJSON a.measures) ∧
          measuresToJSON a.measures
            = J.obj (a.measures.map (fun p => (p.1, p.2.getValuesAsJSON)))) ∧
        (∀ mc m, lookupKey a.measures mc = some m →
          jLookup (measuresToJSON a.measures) mc = some m.getValuesAsJSON ∧
          (m.values ≠ [] → m.getValuesAsJSON
            = J.obj (m.values.map (fun q => (toString q.1, J.num q.2)))))) := by
  rcases r with ⟨cont⟩
  simp only [Areas.wfb, Bool.and_eq_true, List.all_eq_true, decide_eq_true_eq] at h
  obtain ⟨hnd, hall⟩ := h
  constructor
  · intro hempty
    subst hempty
    rfl
  · intro code a hget
    have pm : (code, a) ∈ cont := mem_of_lookupKey cont code a hget
    have hprops := hall (code, a) pm
    obtain ⟨⟨⟨hcode, hndnames⟩, hndmeas⟩, hmeasall⟩ := hprops
    have htree : (Areas.mk cont).toJSONTree
        = J.obj (cont.map (fun p => (p.1, areaToJSON p.2))) := by
      show (cont.foldl (fun j p => jemplace j p.2.area_code (areaToJSON p.2)) J.null)
          = J.obj (cont.map (fun p => (p.1, areaToJSON p.2)))
      cases hc : cont with
      | nil =>
          subst hc
          simp at pm
      | cons p rest =>
          subst hc
          have hkeys : ((p :: rest).map (fun q => q.2.area_code)).Nodup := by
            rw [List.map_congr_left (fun q hq => (hall q hq).1.1.1)]
            exact hnd
          rw [foldl_jemplace_null_cons (fun q => q.2.area_code)
            (fun q => areaToJSON q.2) p rest hkeys]
          congr 1
          exact List.map_congr_left (fun q hq => by rw [(hall q hq).1.1.1])
    have hlook : jLookup (Areas.mk cont).toJSONTree code = some (areaToJSON a) := by
      rw [htree]
      show lookupKey (cont.map (fun p => (p.1, areaToJSON p.2))) code = _
      rw [lookupKey_map_val cont areaToJSON code,
        show lookupKey cont code = some a from hget]
      rfl
    by_cases hme : a.measures = []
    · refine ⟨[("names", namesToJSON a.names)], ?_, rfl, ?_, ?_, ?_, ?_⟩
      · rw [hlook]
        unfold areaToJSON
        rw [hme]
        rfl
      · intro hne
        exact namesToJSON_obj a.names hne hndnames
      · intro _
        rfl
      · intro hne
        exact absurd hme hne
      · intro mc m hlm
        rw [hme] at hlm
        cases hlm
    · have hef : a.measures.isEmpty = false := by
        cases hmm2 : a.measures with
        | nil => exact absurd hmm2 hme
        | cons x xs => rfl
      refine ⟨[("names", namesToJSON a.names),
               ("measures", measuresToJSON a.measures)], ?_, rfl, ?_, ?_, ?_, ?_⟩
      · rw [hlook]
        unfold areaToJSON
        rw [hef]
        rfl
      · intro hne
        exact namesToJSON_obj a.names hne hndnames
      · intro he
        exact absurd he hme
      · intro _
        exact ⟨rfl, measuresToJSON_obj a.measures hme hndmeas⟩
      · intro mc m hlm
        constructor
        · rw [measuresToJSON_obj a.measures hme hndmeas]
          show lookupKey (a.measures.map (fun p => (p.1, p.2.getValuesAsJSON))) mc = _
          rw [lookupKey_map_val a.measures Measure.getValuesAsJSON mc, hlm]
          rfl
        · intro hvne
          have hmem := mem_of_lookupKey a.measures mc m hlm
          exact getValuesAsJSON_obj m hvne (hmeasall (mc, m) hmem)

/-- Registry fixture for the C9 witness: `W1` has no measures, `W2` has one. -/
def jsonReg : Areas :=
  ⟨[("W1", ⟨"W1", [("eng", "Test")], []⟩),
    ("W2", ⟨"W2", [("eng", "Two")], [("pop", ⟨"pop", "P", [(2000, 3)]⟩)]⟩)]⟩

/-- Witness for C9: the empty registry dumps as the empty object, `W1` gets a
    "names" entry and no "measures" entry, `W2` gets both. -/
theorem serialization_shape_witness :
    Areas.toJSON ⟨[]⟩ = "\x7b\x7d" ∧
    (∃ jf, jLookup jsonReg.toJSONTree "W1" = some (J.obj jf) ∧
      lookupKey jf "names" = some (namesToJSON [("eng", "Test")]) ∧
      lookupKey jf "measures" = none) ∧
    (∃ jf, jLookup jsonReg.toJSONTree "W2" = some (J.obj jf) ∧
      lookupKey jf "measures"
        = some (measuresToJSON [("pop", ⟨"pop", "P", [(2000, 3)]⟩)])) := by
  refine ⟨(serialization_shape ⟨[]⟩ (by decide)).1 rfl, ?_, ?_⟩
  · obtain ⟨jf, h1, h2, _, h4, _, _⟩ := (serialization_shape jsonReg (by decide)).2
      "W1" ⟨"W1", [("eng", "Test")], []⟩ rfl
    exact ⟨jf, h1, h2, h4 rfl⟩
  · obtain ⟨jf, h1, _, _, _, h5, _⟩ := (serialization_shape jsonReg (by decide)).2
      "W2" ⟨"W2", [("eng", "Two")], [("pop", ⟨"pop", "P", [(2000, 3)]⟩)]⟩ rfl
    exact ⟨jf, h1, (h5 (by simp)).1⟩

/-! ## Claim C5 -/

/-- The Area one data row of the Authority-Code CSV parses to. -/
def rowArea (line : String) : Area :=
  ⟨fieldAt (splitComma line) 0,
   [("eng", fieldAt (splitComma line) 1), ("cym", fieldAt (splitComma line) 2)], []⟩

/-- Whether a row survives the area filter (the decision made on the freshly
    parsed Area, independent of the registry). -/
def rowPasses (areasFilter : Option (List String)) (loadAll : Bool) (line : String) : Bool :=
  loadAll || checkIfAreaMatchesFilter (rowArea line) areasFilter

/-- The Area stored after merging one row onto an optional existing entry. -/
def acStep (line : String) (opt : Option Area) : Area :=
  match opt with
  | none => rowArea line
  | some old =>
      ⟨fieldAt (splitComma line) 0,
       upsert (upsert old.names "eng" (fieldAt (splitComma line) 1)) "cym"
         (fieldAt (splitComma line) 2),
       old.measures⟩

/-- Pure action of one Authority-Code CSV data row on the registry. -/
def acRowPure (areasFilter : Option (List String)) (loadAll : Bool)
    (r : Areas) (line : String) : Areas :=
  if rowPasses areasFilter loadAll line then
    ⟨upsert r.areas_container (fieldAt (splitComma line) 0)
      (acStep line (r.getArea (fieldAt (splitComma line) 0)))⟩
  else r

theorem setArea_rowArea_eq (r : Areas) (line : String) :
    r.setArea (rowArea line).area_code (rowArea line)
      = Except.ok ⟨upsert r.areas_container (fieldAt (splitComma line) 0)
          (acStep line (r.getArea (fieldAt (splitComma line) 0)))⟩ := by
  unfold Areas.setArea
  rw [show (rowArea line).area_code = fieldAt (splitComma line) 0 from rfl]
  cases hg : r.getArea (fieldAt (splitComma line) 0) with
  | none =>
      dsimp only
      rw [show acStep line none = rowArea line from rfl]
      rfl
  | some old =>
      dsimp only
      have hiso : ∀ p ∈ (rowArea line).names, isIso639 p.1 = true := by
        intro p hp
        rcases List.mem_cons.mp hp with h | h
        · rw [h]
          show isIso639 "eng" = true
          decide
        · rcases List.mem_cons.mp h with h2 | h2
          · rw [h2]
            show isIso639 "cym" = true
            decide
          · cases h2
      have hassign : old.assign (rowArea line) = Except.ok (acStep line (some old)) := by
        simp only [Area.assign]
        rw [foldlM_setName_ok _ _ hiso, except_bind_ok]
        rfl
      rw [hassign]
      rfl

theorem authorityCodeRow_eq_pure (af : Option (List String)) (loadAll : Bool)
    (r : Areas) (line : String) :
    authorityCodeRow af loadAll r line = Except.ok (acRowPure af loadAll r line) := by
  have hset := setArea_rowArea_eq r line
  have heq : ∀ _ : rowPasses af loadAll line = true,
      acRowPure af loadAll r line
        = ⟨upsert r.areas_container (fieldAt (splitComma line) 0)
            (acStep line (r.getArea (fieldAt (splitComma line) 0)))⟩ := by
    intro hp
    unfold acRowPure
    rw [hp]
    rfl
  have ha2 : (Area.create (fieldAt (splitComma line) 0)).setName "eng"
      (fieldAt (splitComma line) 1) = Except.ok
        ⟨fieldAt (splitComma line) 0, [("eng", fieldAt (splitComma line) 1)], []⟩ := by
    rw [setName_ok_of_iso _ _ _ (by decide)]
    rfl
  have ha3 : (⟨fieldAt (splitComma line) 0, [("eng", fieldAt (splitComma line) 1)],
       []⟩ : Area).setName "cym" (fieldAt (splitComma line) 2)
      = Except.ok (rowArea line) := by
    rw [setName_ok_of_iso _ _ _ (by decide)]
    rfl
  simp only [authorityCodeRow]
  rw [ha2, except_bind_ok, ha3, except_bind_ok]
  by_cases hl : loadAll = true
  · subst hl
    simp only [if_true]
    rw [hset, heq (by unfold rowPasses; rfl)]
  · have hl2 : loadAll = false := by
      cases loadAll
      · rfl
      · exact absurd rfl hl
    subst hl2
    simp only [Bool.false_eq_true, if_false]
    by_cases hc : checkIfAreaMatchesFilter (rowArea line) af = true
    · rw [if_pos hc, hset, heq (by unfold rowPasses; rw [hc]; rfl)]
    · rw [if_neg hc]
      unfold acRowPure rowPasses
      rw [show (false || checkIfAreaMatchesFilter (rowArea line) af)
          = checkIfAreaMatchesFilter (rowArea line) af from Bool.false_or _]
      rw [show checkIfAreaMatchesFilter (rowArea line) af = false from by
        cases hcc : checkIfAreaMatchesFilter (rowArea line) af
        · rfl
        · exact absurd hcc hc]
      rfl

theorem foldlM_acRow_eq_pure (af : Option (List String)) (loadAll : Bool)
    (lines : List String) (r : Areas) :
    lines.foldlM (authorityCodeRow af loadAll) r
      = Except.ok (lines.foldl (acRowPure af loadAll) r) := by
  induction lines generalizing r with
  | nil => rfl
  | cons line rest ih =>
      rw [List.foldlM_cons, authorityCodeRow_eq_pure, except_bind_ok, List.foldl_cons]
      exact ih _

/-- Whether a row touches registry code `c`. -/
def rowTouches (af : Option (List String)) (loadAll : Bool) (c : String)
    (line : String) : Bool :=
  rowPasses af loadAll line && decide (c = fieldAt (splitComma line) 0)

/-- Replay of the per-code effect of the row fold. -/
def replayC (af : Option (List String)) (loadAll : Bool) (c : String)
    (lines : List String) (opt : Option Area) : Option Area :=
  lines.foldl (fun o line =>
    if rowTouches af loadAll c line then some (acStep line o) else o) opt

theorem getArea_acRowPure (af : Option (List String)) (loadAll : Bool)
    (r : Areas) (line : String) (c : String) :
    (acRowPure af loadAll r line).getArea c
      = if rowTouches af loadAll c line then some (acStep line (r.getArea c))
        else r.getArea c := by
  unfold acRowPure rowTouches
  by_cases hp : rowPasses af loadAll line = true
  · rw [hp, if_pos rfl]
    by_cases hc : c = fieldAt (splitComma line) 0
    · rw [show (true && decide (c = fieldAt (splitComma line) 0)) = true from by
        simp [hc]]
      rw [hc]
      show lookupKey (upsert r.areas_container (fieldAt (splitComma line) 0)
        (acStep line (r.getArea (fieldAt (splitComma line) 0))))
        (fieldAt (splitComma line) 0) = _
      rw [lookupKey_upsert_self]
      rfl
    · rw [show (true && decide (c = fieldAt (splitComma line) 0)) = false from by
        simp [hc]]
      show lookupKey (upsert r.areas_container (fieldAt (splitComma line) 0) _) c = _
      rw [lookupKey_upsert_ne _ _ _ _ hc]
      rfl
  · have hp2 : rowPasses af loadAll line = false := by
      cases hpp : rowPasses af loadAll line
      · rfl
      · exact absurd hpp hp
    rw [hp2]
    simp

theorem getArea_foldl_acRowPure (af : Option (List String)) (loadAll : Bool)
    (lines : List String) (r : Areas) (c : String) :
    (lines.foldl (acRowPure af loadAll) r).getArea c
      = replayC af loadAll c lines (r.getArea c) := by
  induction lines generalizing r with
  | nil => rfl
  | cons line rest ih =>
      rw [List.foldl_cons, ih, show replayC af loadAll c (line :: rest) (r.getArea c)
          = replayC af loadAll c rest
              (if rowTouches af loadAll c line then some (acStep line (r.getArea c))
               else r.getArea c) from rfl,
        getArea_acRowPure]

/-- The per-code states produced by the Authority-Code fold: empty or a
    two-name, measure-free Area coded `c`. -/
def shapeOK (c : String) (opt : Option Area) : Prop :=
  opt = none ∨ ∃ e w, opt = some ⟨c, [("eng", e), ("cym", w)], []⟩

theorem acStep_of_shape (line : String) (c : String) (opt : Option Area)
    (h : shapeOK c opt) : acStep line opt = rowArea line := by
  rcases h with h | ⟨e, w, h⟩ <;> subst h
  · rfl
  · rfl

theorem replay_shape (af : Option (List String)) (loadAll : Bool) (c : String)
    (lines : List String) (opt : Option Area) (h : shapeOK c opt) :
    shapeOK c (replayC af loadAll c lines opt) := by
  induction lines generalizing opt with
  | nil => exact h
  | cons line rest ih =>
      rw [show replayC af loadAll c (line :: rest) opt
          = replayC af loadAll c rest
              (if rowTouches af loadAll c line then some (acStep line opt) else opt)
          from rfl]
      by_cases ht : rowTouches af loadAll c line = true
      · rw [if_pos ht]
        refine ih _ (Or.inr ⟨fieldAt (splitComma line) 1, fieldAt (splitComma line) 2, ?_⟩)
        rw [acStep_of_shape line c opt h]
        have hcode : c = fieldAt (splitComma line) 0 := by
          unfold rowTouches at ht
          exact of_decide_eq_true (Bool.and_elim_right ht)
        rw [show rowArea line = ⟨fieldAt (splitComma line) 0,
            [("eng", fieldAt (splitComma line) 1), ("cym", fieldAt (splitComma line) 2)],
            []⟩ from rfl, ← hcode]
      · rw [if_neg ht]
        exact ih _ h

theorem replay_irrel (af : Option (List String)) (loadAll : Bool) (c : String)
    (lines : List String) (opt1 opt2 : Option Area)
    (h1 : shapeOK c opt1) (h2 : shapeOK c opt2)
    (htouch : ∃ line ∈ lines, rowTouches af loadAll c line = true) :
    replayC af loadAll c lines opt1 = replayC af loadAll c lines opt2 := by
  induction lines generalizing opt1 opt2 with
  | nil => simp at htouch
  | cons line rest ih =>
      rw [show replayC af loadAll c (line :: rest) opt1
          = replayC af loadAll c rest
              (if rowTouches af loadAll c line then some (acStep line opt1) else opt1)
          from rfl,
        show replayC af loadAll c (line :: rest) opt2
          = replayC af loadAll c rest
              (if rowTouches af loadAll c line then some (acStep line opt2) else opt2)
          from rfl]
      by_cases ht : rowTouches af loadAll c line = true
      · rw [if_pos ht, if_pos ht, acStep_of_shape line c opt1 h1,
          acStep_of_shape line c opt2 h2]
      · rw [if_neg ht, if_neg ht]
        obtain ⟨l2, hmem, hl2⟩ := htouch
        rcases List.mem_cons.mp hmem with h | h
        · subst h
          exact absurd hl2 ht
        · exact ih opt1 opt2 h1 h2 ⟨l2, h, hl2⟩

theorem replay_id_of_untouched (af : Option (List String)) (loadAll : Bool) (c : String)
    (lines : List String) (opt : Option Area)
    (h : ∀ line ∈ lines, ¬ rowTouches af loadAll c line = true) :
    replayC af loadAll c lines opt = opt := by
  induction lines generalizing opt with
  | nil => rfl
  | cons line rest ih =>
      rw [show replayC af loadAll c (line :: rest) opt
          = replayC af loadAll c rest
              (if rowTouches af loadAll c line then some (acStep line opt) else opt)
          from rfl,
        if_neg (h line (List.mem_cons_self line rest))]
      exact ih opt (fun l hl => h l (List.mem_cons_of_mem line hl))

theorem replay_isSome (af : Option (List String)) (loadAll : Bool) (c : String)
    (lines : List String) (opt : Option Area)
    (h : opt.isSome = true ∨ ∃ line ∈ lines, rowTouches af loadAll c line = true) :
    (replayC af loadAll c lines opt).isSome = true := by
  induction lines generalizing opt with
  | nil =>
      rcases h with h | h
      · exact h
      · simp at h
  | cons line rest ih =>
      rw [show replayC af loadAll c (line :: rest) opt
          = replayC af loadAll c rest
              (if rowTouches af loadAll c line then some (acStep line opt) else opt)
          from rfl]
      by_cases ht : rowTouches af loadAll c line = true
      · rw [if_pos ht]
        exact ih _ (Or.inl rfl)
      · rw [if_neg ht]
        refine ih _ ?_
        rcases h with h | ⟨l2, hmem, hl2⟩
        · exact Or.inl h
        · rcases List.mem_cons.mp hmem with h2 | h2
          · subst h2
            exact absurd hl2 ht
          · exact Or.inr ⟨l2, h2, hl2⟩

theorem size_acRowPure (af : Option (List String)) (loadAll : Bool)
    (r : Areas) (line : String)
    (h : rowPasses af loadAll line = true →
      (r.getArea (fieldAt (splitComma line) 0)).isSome = true) :
    (acRowPure af loadAll r line).size = r.size := by
  unfold acRowPure
  by_cases hp : rowPasses af loadAll line = true
  · rw [hp]
    simp only [if_true]
    exact upsert_length_of_isSome _ _ _ (h hp)
  · have hp2 : rowPasses af loadAll line = false := by
      cases hpp : rowPasses af loadAll line
      · rfl
      · exact absurd hpp hp
    rw [hp2]
    simp

theorem isSome_mono_acRowPure (af : Option (List String)) (loadAll : Bool)
    (r : Areas) (line : String) (c : String) (h : (r.getArea c).isSome = true) :
    ((acRowPure af loadAll r line).getArea c).isSome = true := by
  rw [getArea_acRowPure]
  by_cases ht : rowTouches af loadAll c line = true
  · rw [if_pos ht]
    rfl
  · rw [if_neg ht]
    exact h

theorem size_foldl_acRowPure (af : Option (List String)) (loadAll : Bool)
    (lines : List String) (r : Areas)
    (h : ∀ line ∈ lines, rowPasses af loadAll line = true →
      (r.getArea (fieldAt (splitComma line) 0)).isSome = true) :
    (lines.foldl (acRowPure af loadAll) r).size = r.size := by
  induction lines generalizing r with
  | nil => rfl
  | cons line rest ih =>
      rw [List.foldl_cons]
      have h1 := h line (List.mem_cons_self line rest)
      rw [ih (acRowPure af loadAll r line) (fun l hl hp =>
        isSome_mono_acRowPure af loadAll r line _ (h l (List.mem_cons_of_mem line hl) hp))]
      exact size_acRowPure af loadAll r line h1

theorem nodup_acRowPure (af : Option (List String)) (loadAll : Bool)
    (r : Areas) (line : String)
    (h : (r.areas_container.map Prod.fst).Nodup) :
    ((acRowPure af loadAll r line).areas_container.map Prod.fst).Nodup := by
  unfold acRowPure
  by_cases hp : rowPasses af loadAll line = true
  · rw [hp]
    simp only [if_true]
    exact upsert_keys_nodup _ _ _ h
  · have hp2 : rowPasses af loadAll line = false := by
      cases hpp : rowPasses af loadAll line
      · rfl
      · exact absurd hpp hp
    rw [hp2]
    simpa using h

theorem nodup_foldl_acRowPure (af : Option (List String)) (loadAll : Bool)
    (lines : List String) (r : Areas)
    (h : (r.areas_container.map Prod.fst).Nodup) :
    ((lines.foldl (acRowPure af loadAll) r).areas_container.map Prod.fst).Nodup := by
  induction lines generalizing r with
  | nil => exact h
  | cons line rest ih =>
      rw [List.foldl_cons]
      exact ih _ (nodup_acRowPure af loadAll r line h)

theorem eqb_refl_two_names (c e w : String) :
    Area.eqb ⟨c, [("eng", e), ("cym", w)], []⟩ ⟨c, [("eng", e), ("cym", w)], []⟩ = true := by
  simp [Area.eqb, Area.getName, Area.size, lookupKey]

theorem pointwise_idem (af : Option (List String)) (loadAll : Bool)
    (lines : List String) (c : String) :
    ((lines.foldl (acRowPure af loadAll)
        (lines.foldl (acRowPure af loadAll) Areas.empty)).getArea c)
      = (lines.foldl (acRowPure af loadAll) Areas.empty).getArea c := by
  rw [getArea_foldl_acRowPure, getArea_foldl_acRowPure,
    show (Areas.empty.getArea c) = none from rfl]
  by_cases ht : ∃ line ∈ lines, rowTouches af loadAll c line = true
  · exact replay_irrel af loadAll c lines _ none
      (replay_shape af loadAll c lines none (Or.inl rfl)) (Or.inl rfl) ht
  · push_neg at ht
    rw [replay_id_of_untouched af loadAll c lines _
      (fun l hl => by simpa using ht l hl)]

theorem eqByArea_foldl_idem (af : Option (List String)) (loadAll : Bool)
    (lines : List String) :
    Areas.eqByArea
      (lines.foldl (acRowPure af loadAll) (lines.foldl (acRowPure af loadAll) Areas.empty))
      (lines.foldl (acRowPure af loadAll) Areas.empty) = true := by
  have hnd1 : (((lines.foldl (acRowPure af loadAll) Areas.empty)).areas_container.map
      Prod.fst).Nodup :=
    nodup_foldl_acRowPure af loadAll lines Areas.empty (by simp [Areas.empty])
  have hnd2 : (((lines.foldl (acRowPure af loadAll)
      (lines.foldl (acRowPure af loadAll) Areas.empty))).areas_container.map
      Prod.fst).Nodup :=
    nodup_foldl_acRowPure af loadAll lines _ hnd1
  have hpres : ∀ line ∈ lines, rowPasses af loadAll line = true →
      (((lines.foldl (acRowPure af loadAll) Areas.empty)).getArea
        (fieldAt (splitComma line) 0)).isSome = true := by
    intro line hl hp
    rw [getArea_foldl_acRowPure]
    refine replay_isSome af loadAll _ lines _ (Or.inr ⟨line, hl, ?_⟩)
    unfold rowTouches
    rw [hp]
    simp
  unfold Areas.eqByArea
  rw [Bool.and_eq_true]
  constructor
  · rw [decide_eq_true_eq]
    exact size_foldl_acRowPure af loadAll lines _ hpres
  · rw [List.all_eq_true]
    intro p hp
    have hl2 : (lines.foldl (acRowPure af loadAll)
        (lines.foldl (acRowPure af loadAll) Areas.empty)).getArea p.1 = some p.2 :=
      lookupKey_of_mem_nodup _ p hnd2 hp
    have hl1 : (lines.foldl (acRowPure af loadAll) Areas.empty).getArea p.1 = some p.2 :=
      (pointwise_idem af loadAll lines p.1) ▸ hl2
    have hshape : shapeOK p.1 (some p.2) := by
      rw [← hl1, getArea_foldl_acRowPure]
      exact replay_shape af loadAll p.1 lines _ (Or.inl rfl)
    rw [hl1]
    rcases hshape with h | ⟨e, w, h⟩
    · cases h
    · have hp2 : p.2 = ⟨p.1, [("eng", e), ("cym", w)], []⟩ := by
        cases h2 : (some p.2) with
        | none => cases (h2 ▸ h)
        | some a => exact Option.some.inj h
      rw [hp2]
      exact eqb_refl_two_names p.1 e w

/-- **C5.** Idempotent merge: for any well-formed Authority-Code CSV input
    (one whose first run succeeds) and any area filter, running
    `populateFromAuthorityCodeCSV` a second time over the resulting registry
    succeeds and yields a registry equal Area-by-Area — in the sense of
    `Area::operator==` — to the registry of the single run. -/
theorem populateAC_idempotent (lines : List String) (cols : SourceColumnMapping)
    (af : Option (List String)) (r1 : Areas)
    (h : populateFromAuthorityCodeCSV Areas.empty lines cols af = Except.ok r1) :
    ∃ r2, populateFromAuthorityCodeCSV r1 lines cols af = Except.ok r2 ∧
      Areas.eqByArea r2 r1 = true := by
  unfold populateFromAuthorityCodeCSV at h ⊢
  cases hc0 : cols.authCode with
  | none =>
      rw [hc0] at h
      cases h
  | some c0 =>
      rw [hc0] at h
      cases hc1 : cols.authNameEng with
      | none =>
          rw [hc1] at h
          cases h
      | some c1 =>
          rw [hc1] at h
          cases hc2 : cols.authNameCym with
          | none =>
              rw [hc2] at h
              cases h
          | some c2 =>
              rw [hc2] at h
              dsimp only at h ⊢
              by_cases hh : fieldAt (splitComma ((lines.head?).getD "")) 0 = c0 ∧
                  fieldAt (splitComma ((lines.head?).getD "")) 1 = c1 ∧
                  fieldAt (splitComma ((lines.head?).getD "")) 2 = c2
              · rw [if_pos hh] at h ⊢
                rw [foldlM_acRow_eq_pure] at h ⊢
                cases h
                exact ⟨_, rfl, eqByArea_foldl_idem af (filterIsEmptyOrNone af) lines.tail⟩
              · rw [if_neg hh] at h
                cases h

/-- Column mapping of the Authority-Code CSV (`areas.csv`). -/
def acCols : SourceColumnMapping :=
  { authCode := some "code", authNameEng := some "eng", authNameCym := some "cym" }

/-- The registry one run of the Authority-Code parser produces on the
    two-row fixture below. -/
def acIdemReg : Areas :=
  ⟨[("W1", ⟨"W1", [("eng", "Test"), ("cym", "Prawf")], []⟩),
    ("W2", ⟨"W2", [("eng", "Two"), ("cym", "Dau")], []⟩)]⟩

/-- Witness for C5: loading `areas.csv` content a second time over the
    registry of the first load reproduces it up to Area equality. -/
theorem populateAC_idempotent_witness :
    ∃ r2, populateFromAuthorityCodeCSV acIdemReg
        ["code,eng,cym", "W1,Test,Prawf", "W2,Two,Dau"] acCols none = Except.ok r2 ∧
      Areas.eqByArea r2 acIdemReg = true := by
  exact populateAC_idempotent ["code,eng,cym", "W1,Test,Prawf", "W2,Two,Dau"]
    acCols none acIdemReg (by decide)
